import Mathlib

/-!
Verification development for the STL volumetric layout core of net-viz
(`src/viz/STLLayout.js`).  The JavaScript number arithmetic is modelled by
exact rationals (`ℚ`); `Math.sqrt` is threaded through as an explicit
function parameter `sq : ℚ → ℚ` so that every definition stays executable,
and theorems that depend on square roots assume correctness of `sq` at the
points where the source calls `Math.sqrt`.  Special IEEE values (NaN and the
infinities) are modelled separately by the `JSNum` type for the claims that
are about them.
-/

namespace NetViz

/-- Rational model of `THREE.Vector3`: three number components. -/
structure Vec3 where
  x : ℚ
  y : ℚ
  z : ℚ
deriving DecidableEq, Repr

namespace Vec3

/-- Componentwise addition (`Vector3.add`). -/
def add (a b : Vec3) : Vec3 := ⟨a.x + b.x, a.y + b.y, a.z + b.z⟩

/-- Componentwise subtraction (`Vector3.subVectors` / `sub`). -/
def sub (a b : Vec3) : Vec3 := ⟨a.x - b.x, a.y - b.y, a.z - b.z⟩

/-- Scalar multiple (`Vector3.multiplyScalar`). -/
def smul (s : ℚ) (v : Vec3) : Vec3 := ⟨s * v.x, s * v.y, s * v.z⟩

/-- Negation. -/
def neg (v : Vec3) : Vec3 := ⟨-v.x, -v.y, -v.z⟩

/-- Squared length (`Vector3.lengthSq`). -/
def lenSq (v : Vec3) : ℚ := v.x * v.x + v.y * v.y + v.z * v.z

/-- The zero vector. -/
def zero : Vec3 := ⟨0, 0, 0⟩

instance : Add Vec3 := ⟨Vec3.add⟩
instance : Sub Vec3 := ⟨Vec3.sub⟩
instance : Neg Vec3 := ⟨Vec3.neg⟩
instance : SMul ℚ Vec3 := ⟨Vec3.smul⟩

/-- Model of `Vector3.normalize`, which divides by `length() || 1`: a vector
whose length evaluates to `0` is left unchanged.  `sq` stands for
`Math.sqrt`. -/
def normalizeW (sq : ℚ → ℚ) (v : Vec3) : Vec3 :=
  let len := sq v.lenSq
  if len = 0 then v else (1 / len) • v

end Vec3

/-- `GRID_SIZE` (source line 4). -/
def GRID_SIZE : ℕ := 32

/-- `SUB_STEPS` (source line 5). -/
def SUB_STEPS : ℕ := 3

/-- `FIXED_DT = 1 / (60 * SUB_STEPS)` (source line 6). -/
def FIXED_DT : ℚ := 1 / 180

/-- `MIN_DIST_SQ = 0.09`, the square of the 0.3-unit minimum distance
(source line 7). -/
def MIN_DIST_SQ : ℚ := 9 / 100

/-- The `EPSILON = 1e-8` constant of `_rayTriX` (source line 381). -/
def rayEps : ℚ := 1 / 100000000

/-- Determinant `a = e1 · (dir × e2)` of the Möller-Trumbore test for the
fixed direction `dir = (1,0,0)`, as computed at source lines 383-388. -/
def rayTriA (v0 v1 v2 : Vec3) : ℚ :=
  (v1.y - v0.y) * (-(v2.z - v0.z)) + (v1.z - v0.z) * (v2.y - v0.y)

/-- Barycentric parameter `u = (s · h) / a` (source line 394). -/
def rayTriU (rayOX wy wz : ℚ) (v0 v1 v2 : Vec3) : ℚ :=
  (1 / rayTriA v0 v1 v2) *
    ((wy - v0.y) * (-(v2.z - v0.z)) + (wz - v0.z) * (v2.y - v0.y))

/-- First component of `q = s × e1` (source line 397). -/
def rayTriQx (rayOX wy wz : ℚ) (v0 v1 v2 : Vec3) : ℚ :=
  (wy - v0.y) * (v1.z - v0.z) - (wz - v0.z) * (v1.y - v0.y)

/-- Barycentric parameter `v = (dir · q) / a` (source line 401). -/
def rayTriV (rayOX wy wz : ℚ) (v0 v1 v2 : Vec3) : ℚ :=
  (1 / rayTriA v0 v1 v2) * rayTriQx rayOX wy wz v0 v1 v2

/-- Hit parameter `t = (e2 · q) / a` (source line 404). -/
def rayTriT (rayOX wy wz : ℚ) (v0 v1 v2 : Vec3) : ℚ :=
  let sx := rayOX - v0.x
  let sy := wy - v0.y
  let sz := wz - v0.z
  let e1x := v1.x - v0.x
  let e1y := v1.y - v0.y
  let e1z := v1.z - v0.z
  let qx := sy * e1z - sz * e1y
  let qy := sz * e1x - sx * e1z
  let qz := sx * e1y - sy * e1x
  (1 / rayTriA v0 v1 v2) *
    ((v2.x - v0.x) * qx + (v2.y - v0.y) * qy + (v2.z - v0.z) * qz)

/-- Model of `_rayTriX(rayOX, wy, wz, v0, v1, v2)` (source lines 380-408):
Möller-Trumbore intersection of the `+X`-directed ray from
`(rayOX, wy, wz)` with the triangle `v0 v1 v2`, returning the world-X
coordinate of the hit or `none`. -/
def rayTriX (rayOX wy wz : ℚ) (v0 v1 v2 : Vec3) : Option ℚ :=
  let e1x := v1.x - v0.x
  let e1y := v1.y - v0.y
  let e1z := v1.z - v0.z
  let e2x := v2.x - v0.x
  let e2y := v2.y - v0.y
  let e2z := v2.z - v0.z
  let hy := -e2z
  let hz := e2y
  let a := e1y * hy + e1z * hz
  if |a| < rayEps then none
  else
    let f := 1 / a
    let sx := rayOX - v0.x
    let sy := wy - v0.y
    let sz := wz - v0.z
    let u := f * (sy * hy + sz * hz)
    if u < -rayEps ∨ u > 1 + rayEps then none
    else
      let qx := sy * e1z - sz * e1y
      let qy := sz * e1x - sx * e1z
      let qz := sx * e1y - sy * e1x
      let v := f * qx
      if v < -rayEps ∨ u + v > 1 + rayEps then none
      else
        let t := f * (e2x * qx + e2y * qy + e2z * qz)
        if t < rayEps then none
        else some (rayOX + t)

/-- Acceptance condition of the intersection test exactly as the claim
states it: determinant magnitude at least `1e-8`, `t` strictly greater than
the epsilon, both `u` and `v` within `[-eps, 1+eps]`, and `u + v ≤ 1+eps`.
This is the claim-side of the refinement comparison; `rayTriX` above is the
code side. -/
def rayTriXClaimed (rayOX wy wz : ℚ) (v0 v1 v2 : Vec3) : Option ℚ :=
  let a := rayTriA v0 v1 v2
  let u := rayTriU rayOX wy wz v0 v1 v2
  let v := rayTriV rayOX wy wz v0 v1 v2
  let t := rayTriT rayOX wy wz v0 v1 v2
  if rayEps ≤ |a| ∧ t > rayEps ∧
      -rayEps ≤ u ∧ u ≤ 1 + rayEps ∧ -rayEps ≤ v ∧ v ≤ 1 + rayEps ∧
      u + v ≤ 1 + rayEps then
    some (rayOX + t)
  else none

/-- Componentwise extensionality for `Vec3`. -/
theorem Vec3.ext_xyz {a b : Vec3} (hx : a.x = b.x) (hy : a.y = b.y)
    (hz : a.z = b.z) : a = b := by
  cases a; cases b; simp_all

theorem Vec3.add_x (a b : Vec3) : (a + b).x = a.x + b.x := rfl
theorem Vec3.add_y (a b : Vec3) : (a + b).y = a.y + b.y := rfl
theorem Vec3.add_z (a b : Vec3) : (a + b).z = a.z + b.z := rfl
theorem Vec3.sub_x (a b : Vec3) : (a - b).x = a.x - b.x := rfl
theorem Vec3.sub_y (a b : Vec3) : (a - b).y = a.y - b.y := rfl
theorem Vec3.sub_z (a b : Vec3) : (a - b).z = a.z - b.z := rfl
theorem Vec3.smul_x (s : ℚ) (v : Vec3) : (s • v).x = s * v.x := rfl
theorem Vec3.smul_y (s : ℚ) (v : Vec3) : (s • v).y = s * v.y := rfl
theorem Vec3.smul_z (s : ℚ) (v : Vec3) : (s • v).z = s * v.z := rfl

/-- C3, counterexample.  Two concrete rays on which `_rayTriX` disagrees
with the claim's acceptance condition: on the first the code accepts a hit
whose parameter is exactly `t = 1e-8` (the code tests `t < EPSILON`, so
`t` equal to the epsilon is accepted, while the claim requires `t`
strictly greater); on the second the code accepts a hit whose barycentric
`v` exceeds `1 + eps` (the code never bounds `v` above on its own, only
`u + v`), while the claim requires `v ≤ 1 + eps`. -/
theorem rayTriX_claim_counterexample :
    rayTriX 0 (1/4) (1/4) ⟨1/100000000, 0, 0⟩ ⟨1/100000000, 1, 0⟩
        ⟨1/100000000, 0, 1⟩ = some (1/100000000) ∧
    rayTriXClaimed 0 (1/4) (1/4) ⟨1/100000000, 0, 0⟩ ⟨1/100000000, 1, 0⟩
        ⟨1/100000000, 0, 1⟩ = none ∧
    rayTriX (-1) (-(1/100000000)) (2 + 3/100000000) ⟨0, 0, 0⟩ ⟨0, 2, 0⟩
        ⟨0, 0, 2⟩ = some 0 ∧
    rayTriXClaimed (-1) (-(1/100000000)) (2 + 3/100000000) ⟨0, 0, 0⟩
        ⟨0, 2, 0⟩ ⟨0, 0, 2⟩ = none := by
  refine ⟨?_, ?_, ?_, ?_⟩ <;>
    norm_num [rayTriX, rayTriXClaimed, rayTriA, rayTriU, rayTriV, rayTriT,
      rayTriQx, rayEps]

/-- C3, amended.  `_rayTriX` returns a hit exactly when the determinant
magnitude is at least `1e-8`, `u` lies within `[-eps, 1+eps]`, `v ≥ -eps`,
`u + v ≤ 1 + eps`, and `t ≥ eps` (at least, not strictly greater; and `v`
has no separate upper bound — `v ≤ 1 + eps` only follows when `u ≥ 0`);
when it returns a hit, the returned value together with the scanline
coordinates is the barycentric point `v0 + u·e1 + v·e2` of the triangle,
i.e. the world-X coordinate of the intersection point. -/
theorem rayTriX_characterization (rayOX wy wz : ℚ) (v0 v1 v2 : Vec3) :
    (rayTriX rayOX wy wz v0 v1 v2 =
      if rayEps ≤ |rayTriA v0 v1 v2| ∧
          -rayEps ≤ rayTriU rayOX wy wz v0 v1 v2 ∧
          rayTriU rayOX wy wz v0 v1 v2 ≤ 1 + rayEps ∧
          -rayEps ≤ rayTriV rayOX wy wz v0 v1 v2 ∧
          rayTriU rayOX wy wz v0 v1 v2 + rayTriV rayOX wy wz v0 v1 v2 ≤
            1 + rayEps ∧
          rayEps ≤ rayTriT rayOX wy wz v0 v1 v2 then
        some (rayOX + rayTriT rayOX wy wz v0 v1 v2)
      else none) ∧
    ∀ w : ℚ, rayTriX rayOX wy wz v0 v1 v2 = some w →
      ∃ u v : ℚ, Vec3.mk w wy wz = v0 + u • (v1 - v0) + v • (v2 - v0) := by
  set A := rayTriA v0 v1 v2 with hA
  set U := rayTriU rayOX wy wz v0 v1 v2 with hU
  set V := rayTriV rayOX wy wz v0 v1 v2 with hV
  set T := rayTriT rayOX wy wz v0 v1 v2 with hT
  have hx : rayTriX rayOX wy wz v0 v1 v2 =
      if |A| < rayEps then none
      else if U < -rayEps ∨ U > 1 + rayEps then none
      else if V < -rayEps ∨ U + V > 1 + rayEps then none
      else if T < rayEps then none
      else some (rayOX + T) := rfl
  have hchar : rayTriX rayOX wy wz v0 v1 v2 =
      if rayEps ≤ |A| ∧ -rayEps ≤ U ∧ U ≤ 1 + rayEps ∧ -rayEps ≤ V ∧
          U + V ≤ 1 + rayEps ∧ rayEps ≤ T then
        some (rayOX + T)
      else none := by
    rw [hx]
    by_cases h1 : |A| < rayEps
    · rw [if_pos h1, if_neg]
      rintro ⟨c1, -⟩; linarith
    · rw [if_neg h1]
      by_cases h2 : U < -rayEps ∨ U > 1 + rayEps
      · rw [if_pos h2, if_neg]
        rintro ⟨-, c2, c3, -⟩
        rcases h2 with h | h <;> linarith
      · rw [if_neg h2]
        push_neg at h2
        by_cases h3 : V < -rayEps ∨ U + V > 1 + rayEps
        · rw [if_pos h3, if_neg]
          rintro ⟨-, -, -, c4, c5, -⟩
          rcases h3 with h | h <;> linarith
        · rw [if_neg h3]
          push_neg at h3
          by_cases h4 : T < rayEps
          · rw [if_pos h4, if_neg]
            rintro ⟨-, -, -, -, -, c6⟩; linarith
          · rw [if_neg h4, if_pos]
            exact ⟨not_lt.mp h1, h2.1, h2.2, h3.1, h3.2, not_lt.mp h4⟩
  refine ⟨hchar, ?_⟩
  intro w hw
  rw [hchar] at hw
  split_ifs at hw with hc
  · have hwt : w = rayOX + T := (Option.some.inj hw).symm
    have ha0 : A ≠ 0 := by
      have : (0:ℚ) < |A| := lt_of_lt_of_le (by norm_num [rayEps]) hc.1
      exact abs_pos.mp this
    refine ⟨U, V, Vec3.ext_xyz ?_ ?_ ?_⟩
    · show w = (v0 + U • (v1 - v0) + V • (v2 - v0)).x
      rw [hwt, Vec3.add_x, Vec3.add_x, Vec3.smul_x, Vec3.smul_x, Vec3.sub_x,
        Vec3.sub_x, hT, hU, hV, rayTriT, rayTriU, rayTriV, rayTriQx]
      rw [hA] at ha0
      rw [rayTriA] at ha0 ⊢
      have h1 := mul_inv_cancel₀ ha0
      linear_combination (v0.x - rayOX) * h1
    · show wy = (v0 + U • (v1 - v0) + V • (v2 - v0)).y
      rw [Vec3.add_y, Vec3.add_y, Vec3.smul_y, Vec3.smul_y, Vec3.sub_y,
        Vec3.sub_y, hU, hV, rayTriU, rayTriV, rayTriQx]
      rw [hA] at ha0
      rw [rayTriA] at ha0 ⊢
      have h1 := mul_inv_cancel₀ ha0
      linear_combination (v0.y - wy) * h1
    · show wz = (v0 + U • (v1 - v0) + V • (v2 - v0)).z
      rw [Vec3.add_z, Vec3.add_z, Vec3.smul_z, Vec3.smul_z, Vec3.sub_z,
        Vec3.sub_z, hU, hV, rayTriU, rayTriV, rayTriQx]
      rw [hA] at ha0
      rw [rayTriA] at ha0 ⊢
      have h1 := mul_inv_cancel₀ ha0
      linear_combination (v0.z - wz) * h1

/-- C3, witness: the characterization applied to a concrete transversal
ray, discharging the hit hypothesis by evaluation. -/
theorem rayTriX_characterization_witness :
    ∃ u v : ℚ, Vec3.mk 0 (1/2) (1/2) =
      Vec3.mk 0 0 0 + u • (Vec3.mk 0 2 0 - Vec3.mk 0 0 0) +
        v • (Vec3.mk 0 0 2 - Vec3.mk 0 0 0) :=
  (rayTriX_characterization (-1) (1/2) (1/2) ⟨0,0,0⟩ ⟨0,2,0⟩ ⟨0,0,2⟩).2 0
    (by norm_num [rayTriX, rayEps])

/-- C7, counterexample.  The spec's own example triangle
`(0,0,0), (2,0,0), (0,2,0)` lies in the plane `z = 0`, so a `+X` ray is
parallel to it: at the spec's sample scanline `(y, z) = (0.5, 0.5)` the
code rejects the triangle with determinant `0` and returns no hit, while
the claim asserts a deterministic hit. -/
theorem rayTriX_example_counterexample :
    rayTriX (-1) (1/2) (1/2) ⟨0,0,0⟩ ⟨2,0,0⟩ ⟨0,2,0⟩ = none := by
  norm_num [rayTriX, rayTriA, rayEps]

/-- C7, amended.  For the spec's triangle every `+X` ray is parallel to
its plane and `_rayTriX` returns no hit; for the transversal analogue with
vertices `(0,0,0), (0,2,0), (0,0,2)` the ray through `(y,z) = (0.5,0.5)`
from `rayOX = -1` returns the deterministic analytic hit `t = 1` (world-X
`0`), and a ray missing the triangle's plane extent returns no hit. -/
theorem rayTriX_concrete_examples :
    rayTriX (-1) (1/2) (1/2) ⟨0,0,0⟩ ⟨2,0,0⟩ ⟨0,2,0⟩ = none ∧
    rayTriX (-1) (1/2) (1/2) ⟨0,0,0⟩ ⟨0,2,0⟩ ⟨0,0,2⟩ = some 0 ∧
    rayTriX (-1) 3 (1/2) ⟨0,0,0⟩ ⟨0,2,0⟩ ⟨0,0,2⟩ = none := by
  refine ⟨?_, ?_, ?_⟩ <;> norm_num [rayTriX, rayTriA, rayEps]

/-- Dedup epsilon `1e-5` of the scanline hit list (source line 195). -/
def dedupEps : ℚ := 1 / 100000

/-- `hits.sort((a, b) => a - b)` (source line 190): ascending sort of the
collected hit X-coordinates, modelled by insertion sort. -/
def sortHits (hits : List ℚ) : List ℚ := List.insertionSort (· ≤ ·) hits

/-- Inner loop of the dedup pass (source lines 194-196): a hit is kept
only when it exceeds the last kept hit by more than `1e-5`. -/
def dedupFrom (last : ℚ) : List ℚ → List ℚ
  | [] => []
  | h :: rest =>
      if h - last > dedupEps then h :: dedupFrom h rest
      else dedupFrom last rest

/-- The `deduped` list (source lines 193-196): the first sorted hit is
always kept, the rest filtered by `dedupFrom`. -/
def dedupHits : List ℚ → List ℚ
  | [] => []
  | h :: rest => h :: dedupFrom h rest

/-- The span-pairing loop (source line 199, `for h; h + 1 < len; h += 2`):
consecutive pairs `(deduped[2k], deduped[2k+1])`; a final unpaired element
is never read. -/
def pairSpans : List ℚ → List (ℚ × ℚ)
  | x0 :: x1 :: rest => (x0, x1) :: pairSpans rest
  | _ => []

/-- Cells marked for one span (source lines 200-206): clamp the floor cell
indices of the two span ends into `[0, G-1]` and mark every index in
between inclusively. -/
def spanCells (minx sizex : ℚ) (x0 x1 : ℚ) : List ℤ :=
  let ix0 : ℤ := max 0 ⌊(x0 - minx) / sizex * (GRID_SIZE : ℚ)⌋
  let ix1 : ℤ := min ((GRID_SIZE : ℤ) - 1) ⌊(x1 - minx) / sizex * (GRID_SIZE : ℚ)⌋
  (List.range (ix1 + 1 - ix0).toNat).map fun k => ix0 + (k : ℤ)

/-- The X-cell indices one scanline marks interior (source lines 183-207):
sort the hits, deduplicate, pair consecutively, and mark every span. -/
def markScanline (minx sizex : ℚ) (hits : List ℚ) : List ℤ :=
  (pairSpans (dedupHits (sortHits hits))).flatMap fun s =>
    spanCells minx sizex s.1 s.2

theorem chain_dedupFrom (l : List ℚ) (last : ℚ) :
    List.Chain (fun a b => a + dedupEps < b) last (dedupFrom last l) := by
  induction l generalizing last with
  | nil => exact List.Chain.nil
  | cons h rest ih =>
      rw [dedupFrom]
      split_ifs with hgt
      · exact List.Chain.cons (by linarith) (ih h)
      · exact ih last

theorem mem_dedupFrom {x : ℚ} :
    ∀ {l : List ℚ} {last : ℚ}, x ∈ dedupFrom last l → x ∈ l := by
  intro l
  induction l with
  | nil => intro last h; simp [dedupFrom] at h
  | cons h rest ih =>
      intro last hx
      rw [dedupFrom] at hx
      split_ifs at hx with hgt
      · rcases List.mem_cons.mp hx with h1 | h1
        · exact List.mem_cons.mpr (Or.inl h1)
        · exact List.mem_cons.mpr (Or.inr (ih h1))
      · exact List.mem_cons.mpr (Or.inr (ih hx))

theorem pairSpans_get :
    ∀ (k : ℕ) (d : List ℚ), k < (pairSpans d).length →
      2 * k + 1 < d.length ∧
      (pairSpans d).getD k (0, 0) =
        (d.getD (2 * k) 0, d.getD (2 * k + 1) 0) := by
  intro k
  induction k with
  | zero =>
      intro d hk
      match d with
      | [] => simp [pairSpans] at hk
      | [x] => simp [pairSpans] at hk
      | x0 :: x1 :: rest => simp [pairSpans]
  | succ k ih =>
      intro d hk
      match d with
      | [] => simp [pairSpans] at hk
      | [x] => simp [pairSpans] at hk
      | x0 :: x1 :: rest =>
          rw [pairSpans] at hk
          simp only [List.length_cons] at hk
          have hk' : k < (pairSpans rest).length := by omega
          obtain ⟨hlen, hget⟩ := ih rest hk'
          refine ⟨by simp only [List.length_cons]; omega, ?_⟩
          rw [pairSpans, List.getD_cons_succ, hget]
          have e1 : 2 * (k + 1) = 2 * k + 1 + 1 := by omega
          rw [e1]
          simp [List.getD_cons_succ]

theorem pairSpans_dropLast_aux :
    ∀ (n : ℕ) (d : List ℚ), d.length ≤ n → Odd d.length →
      pairSpans d = pairSpans d.dropLast := by
  intro n
  induction n with
  | zero =>
      intro d hd hodd
      match d with
      | [] => exact absurd hodd (by decide)
      | x :: rest => simp at hd
  | succ n ih =>
      intro d hd hodd
      match d with
      | [] => exact absurd hodd (by decide)
      | [x] => rfl
      | x0 :: x1 :: rest =>
          have hodd' : Odd rest.length := by
            simp only [List.length_cons] at hodd
            rcases hodd with ⟨m, hm⟩
            exact ⟨m - 1, by omega⟩
          match rest with
          | [] => exact absurd hodd' (by decide)
          | r :: rs =>
              rw [pairSpans, List.dropLast_cons₂, List.dropLast_cons₂,
                pairSpans]
              have hlen : (r :: rs).length ≤ n := by
                simp only [List.length_cons] at hd ⊢
                omega
              rw [ih (r :: rs) hlen hodd']

theorem pairSpans_dropLast (d : List ℚ) (hodd : Odd d.length) :
    pairSpans d = pairSpans d.dropLast :=
  pairSpans_dropLast_aux d.length d le_rfl hodd

/-- C6: for every scanline hit list, the code sorts the accepted hits
ascending, deduplicates so that consecutive retained hits are strictly
more than `1e-5` apart (every retained hit is one of the original hits),
marks cells only from the consecutive pairs `(hit[2k], hit[2k+1])` of the
deduplicated list, and when the deduplicated count is odd the final
unpaired hit contributes nothing: the marked cells are exactly those of
the list with the last hit dropped, so a non-watertight scanline degrades
to a partially filled row instead of failing. -/
theorem voxelize_scanline_pairing (minx sizex : ℚ) (hits : List ℚ) :
    List.Sorted (· ≤ ·) (sortHits hits) ∧
    (sortHits hits).Perm hits ∧
    List.Chain' (fun a b => a + dedupEps < b) (dedupHits (sortHits hits)) ∧
    (∀ x ∈ dedupHits (sortHits hits), x ∈ hits) ∧
    (∀ k : ℕ, k < (pairSpans (dedupHits (sortHits hits))).length →
      2 * k + 1 < (dedupHits (sortHits hits)).length ∧
      (pairSpans (dedupHits (sortHits hits))).getD k (0, 0) =
        ((dedupHits (sortHits hits)).getD (2 * k) 0,
         (dedupHits (sortHits hits)).getD (2 * k + 1) 0)) ∧
    (Odd (dedupHits (sortHits hits)).length →
      markScanline minx sizex hits =
        (pairSpans ((dedupHits (sortHits hits)).dropLast)).flatMap fun s =>
          spanCells minx sizex s.1 s.2) := by
  refine ⟨?_, List.perm_insertionSort _ hits, ?_, ?_, ?_, ?_⟩
  · exact List.sorted_insertionSort _ hits
  · match hs : sortHits hits with
    | [] => simp [dedupHits]
    | h :: rest => exact chain_dedupFrom rest h
  · intro x hx
    have hmem : x ∈ sortHits hits := by
      match hs : sortHits hits with
      | [] => rw [hs] at hx; simp [dedupHits] at hx
      | h :: rest =>
          rw [hs] at hx
          rw [dedupHits] at hx
          rcases List.mem_cons.mp hx with h1 | h1
          · simp [h1]
          · exact List.mem_cons.mpr (Or.inr (mem_dedupFrom h1))
    exact (List.perm_insertionSort _ hits).mem_iff.mp hmem
  · intro k hk
    exact pairSpans_get k _ hk
  · intro hodd
    rw [markScanline, pairSpans_dropLast _ hodd]

/-- C6, witness: the scanline theorem applied to a concrete hit list whose
deduplicated form has odd length (a non-watertight scanline). -/
theorem voxelize_scanline_pairing_witness :
    List.Sorted (· ≤ ·) (sortHits [3, 1, 2, 1]) ∧
    (sortHits [3, 1, 2, 1]).Perm [3, 1, 2, 1] ∧
    List.Chain' (fun a b => a + dedupEps < b)
      (dedupHits (sortHits [3, 1, 2, 1])) ∧
    (∀ x ∈ dedupHits (sortHits [3, 1, 2, 1]), x ∈ ([3, 1, 2, 1] : List ℚ)) ∧
    markScanline 0 10 [3, 1, 2, 1] =
      (pairSpans ((dedupHits (sortHits [3, 1, 2, 1])).dropLast)).flatMap
        fun s => spanCells 0 10 s.1 s.2 := by
  obtain ⟨h1, h2, h3, h4, -, h6⟩ := voxelize_scanline_pairing 0 10 [3, 1, 2, 1]
  refine ⟨h1, h2, h3, h4, h6 ?_⟩
  norm_num [sortHits, List.insertionSort, List.orderedInsert, dedupHits,
    dedupFrom, dedupEps]
  decide

/-- World-space bounds of the normalized mesh (`this._bounds`, source
lines 62-67): minimum corner, maximum corner and size vector. -/
structure Bounds where
  min : Vec3
  max : Vec3
  size : Vec3
deriving DecidableEq, Repr

/-- Floor cell index of a world coordinate along one axis:
`Math.floor((w - min) / size * G)` (source lines 235-237, 331-333). -/
def cellCoord (minc sizec w : ℚ) : ℤ :=
  ⌊(w - minc) / sizec * (GRID_SIZE : ℚ)⌋

/-- `_isInside(pos)` (source lines 232-240): positions whose cell is out
of the grid are exterior; otherwise the voxel byte at
`ix*G*G + iy*G + iz` must equal `1`. -/
def isInside (b : Bounds) (vox : ℕ → ℕ) (p : Vec3) : Bool :=
  let ix := cellCoord b.min.x b.size.x p.x
  let iy := cellCoord b.min.y b.size.y p.y
  let iz := cellCoord b.min.z b.size.z p.z
  if ix < 0 ∨ (GRID_SIZE : ℤ) ≤ ix ∨ iy < 0 ∨ (GRID_SIZE : ℤ) ≤ iy ∨
      iz < 0 ∨ (GRID_SIZE : ℤ) ≤ iz then false
  else
    decide (vox (ix * (GRID_SIZE : ℤ) * (GRID_SIZE : ℤ) +
      iy * (GRID_SIZE : ℤ) + iz).toNat = 1)

/-- Simulation particle state (one entry of `this._neurons`, source lines
107-118): position, previous position, velocity and owning layer index.
The force accumulator is zeroed at the start of every substep (source
line 305) and is threaded separately. -/
structure Neuron where
  pos : Vec3
  prev : Vec3
  vel : Vec3
  layer : ℕ
deriving DecidableEq, Repr

/-- The tunable simulation parameters (source lines 20-23). -/
structure SimParams where
  kRepel : ℚ
  kLayer : ℚ
  kBoundary : ℚ
  damping : ℚ
deriving DecidableEq, Repr

/-- Default parameter values (source lines 20-23). -/
def defaultParams : SimParams := ⟨6/10, 4/100, 4/10, 85/100⟩

/-- Iteration order of the all-pairs repulsion double loop (source lines
308-309): pairs `(i, j)` with `0 ≤ i < j < N`, `i` in the outer loop. -/
def pairList (N : ℕ) : List (ℕ × ℕ) :=
  (List.range N).flatMap fun i =>
    ((List.range N).filter fun j => i < j).map fun j => (i, j)

/-- The repulsion contribution of one node pair (source lines 310-312):
the normalized separation vector scaled by
`kRepel / max(squaredDistance, MIN_DIST_SQ)`. -/
def repelPairForce (sq : ℚ → ℚ) (kR : ℚ) (p q : Vec3) : Vec3 :=
  let d := p - q
  let f := kR / max d.lenSq MIN_DIST_SQ
  f • d.normalizeW sq

/-- One iteration of the repulsion loop body (source lines 310-314): the
pair force is added to node `i`'s accumulator and subtracted from node
`j`'s. -/
def applyRepel (sq : ℚ → ℚ) (kR : ℚ) (ps : List Vec3) (fs : List Vec3)
    (ij : ℕ × ℕ) : List Vec3 :=
  let F := repelPairForce sq kR (ps.getD ij.1 Vec3.zero)
    (ps.getD ij.2 Vec3.zero)
  let fs1 := fs.set ij.1 (fs.getD ij.1 Vec3.zero + F)
  fs1.set ij.2 (fs1.getD ij.2 Vec3.zero - F)

/-- Phase 1, all-pairs repulsion (source lines 307-316): fold the loop
body over the pair ordering starting from zeroed accumulators. -/
def repulsionForces (sq : ℚ → ℚ) (kR : ℚ) (ps : List Vec3) : List Vec3 :=
  (pairList ps.length).foldl (applyRepel sq kR ps)
    (List.replicate ps.length Vec3.zero)

/-- Phase 2, layer guidance for one node (source lines 318-324): a
missing layer target contributes nothing (`if (!tgt) continue`),
otherwise the force is `kLayer · (target - pos)`. -/
def layerForce (kL : ℚ) (targets : List Vec3) (layer : ℕ) (p : Vec3) :
    Vec3 :=
  match targets[layer]? with
  | none => Vec3.zero
  | some t => kL • (t - p)

/-- The 5×5×5 neighbourhood offsets in loop order (source lines 335-338),
with the centre cell skipped by `continue`. -/
def neighborOffsets : List (ℤ × ℤ × ℤ) :=
  ((List.range 5).flatMap fun dx =>
    (List.range 5).flatMap fun dy =>
      (List.range 5).map fun dz =>
        ((dx : ℤ) - 2, (dy : ℤ) - 2, (dz : ℤ) - 2)).filter
    fun o => o ≠ (0, 0, 0)

/-- Phase 3, boundary pushback for one node (source lines 326-357): every
exterior or out-of-grid neighbour cell contributes an inverse-square
force directed from the cell centre toward the node, with the squared
distance clamped below by `0.01`. -/
def boundaryForce (sq : ℚ → ℚ) (kB : ℚ) (b : Bounds) (vox : ℕ → ℕ)
    (p : Vec3) : Vec3 :=
  let cx := cellCoord b.min.x b.size.x p.x
  let cy := cellCoord b.min.y b.size.y p.y
  let cz := cellCoord b.min.z b.size.z p.z
  neighborOffsets.foldl (fun acc o =>
    let nx := cx + o.1
    let ny := cy + o.2.1
    let nz := cz + o.2.2
    if nx < 0 ∨ (GRID_SIZE : ℤ) ≤ nx ∨ ny < 0 ∨ (GRID_SIZE : ℤ) ≤ ny ∨
        nz < 0 ∨ (GRID_SIZE : ℤ) ≤ nz ∨
        vox (nx * (GRID_SIZE : ℤ) * (GRID_SIZE : ℤ) +
          ny * (GRID_SIZE : ℤ) + nz).toNat = 0 then
      let center : Vec3 :=
        ⟨b.min.x + ((nx : ℚ) + 1/2) / (GRID_SIZE : ℚ) * b.size.x,
         b.min.y + ((ny : ℚ) + 1/2) / (GRID_SIZE : ℚ) * b.size.y,
         b.min.z + ((nz : ℚ) + 1/2) / (GRID_SIZE : ℚ) * b.size.z⟩
      let d := p - center
      let distSq := max d.lenSq (1/100)
      acc + (kB / distSq) • d.normalizeW sq
    else acc) Vec3.zero

/-- Total accumulated force on every node after the three force phases
(source lines 304-357): all phases read only the frozen pre-substep
positions, so each node's total is the sum of its three contributions. -/
def computeForces (sq : ℚ → ℚ) (P : SimParams) (b : Bounds)
    (vox : ℕ → ℕ) (targets : List Vec3) (ns : List Neuron) : List Vec3 :=
  let rep := repulsionForces sq P.kRepel (ns.map (·.pos))
  (ns.zip rep).map fun nf =>
    nf.2 + layerForce P.kLayer targets nf.1.layer nf.1.pos +
      boundaryForce sq P.kBoundary b vox nf.1.pos

/-- Phase 4 for one node (source lines 361-372): semi-implicit Euler
(`vel := damping·(vel + dt·force)`, `pos := pos + dt·vel`), then the hard
containment clamp: a position not classified interior is reverted to the
pre-substep position and the velocity is scaled by `-0.3`.  The second
component is the node's kinetic-energy contribution (source line 366),
accumulated before the clamp. -/
def integrateNode (P : SimParams) (b : Bounds) (vox : ℕ → ℕ) (dt : ℚ)
    (n : Neuron) (F : Vec3) : Neuron × ℚ :=
  let v1 := P.damping • (n.vel + dt • F)
  let p1 := n.pos + dt • v1
  if isInside b vox p1 then (⟨p1, n.pos, v1, n.layer⟩, v1.lenSq)
  else (⟨n.pos, n.pos, ((-3 : ℚ) / 10) • v1, n.layer⟩, v1.lenSq)

/-- `_subStep(dt)` (source lines 299-375), acting on the neuron list
paired with the exposed `energy` field: an empty list returns unchanged
(source line 302); otherwise forces are computed from the pre-substep
snapshot, every node is integrated and clamped, and `energy` becomes
`ke / N`. -/
def subStep (sq : ℚ → ℚ) (P : SimParams) (b : Bounds) (vox : ℕ → ℕ)
    (targets : List Vec3) (dt : ℚ) (st : List Neuron × ℚ) :
    List Neuron × ℚ :=
  if st.1.isEmpty then st
  else
    let Fs := computeForces sq P b vox targets st.1
    let out := (st.1.zip Fs).map fun nf => integrateNode P b vox dt nf.1 nf.2
    (out.map Prod.fst, (out.map Prod.snd).sum / (st.1.length : ℚ))

/-- `k` consecutive substeps; one external tick (`_step`, source lines
283-297) performs `SUB_STEPS = 3` of them with `FIXED_DT`. -/
def subStepN (sq : ℚ → ℚ) (P : SimParams) (b : Bounds) (vox : ℕ → ℕ)
    (targets : List Vec3) (dt : ℚ) : ℕ → (List Neuron × ℚ) →
    List Neuron × ℚ
  | 0, st => st
  | Nat.succ k, st =>
      subStepN sq P b vox targets dt k (subStep sq P b vox targets dt st)

/-- The mean of the squared post-integration, pre-clamp velocities of one
substep applied to the node list `ns`: this is the quantity `_subStep`
stores into `energy`. -/
def preclampMean (sq : ℚ → ℚ) (P : SimParams) (b : Bounds)
    (vox : ℕ → ℕ) (targets : List Vec3) (dt : ℚ) (ns : List Neuron) : ℚ :=
  ((ns.zip (computeForces sq P b vox targets ns)).map fun nf =>
    (P.damping • (nf.1.vel + dt • nf.2)).lenSq).sum / (ns.length : ℚ)

theorem subStep_mem_inside (sq : ℚ → ℚ) (P : SimParams) (b : Bounds)
    (vox : ℕ → ℕ) (targets : List Vec3) (dt : ℚ) (st : List Neuron × ℚ)
    (h : ∀ n ∈ st.1, isInside b vox n.pos = true) :
    ∀ m ∈ (subStep sq P b vox targets dt st).1, isInside b vox m.pos = true := by
  intro m hm
  rw [subStep] at hm
  split_ifs at hm with he
  · exact h m hm
  · simp only [List.mem_map] at hm
    obtain ⟨res, hres, hset⟩ := hm
    obtain ⟨nf, hnf, hres2⟩ := hres
    obtain ⟨n2, F2⟩ := nf
    have hmem : n2 ∈ st.1 := (List.of_mem_zip hnf).1
    rw [← hset, ← hres2, integrateNode]
    by_cases hin : isInside b vox
        (n2.pos + dt • (P.damping • (n2.vel + dt • F2))) = true
    · rw [if_pos hin]
      simpa using hin
    · rw [if_neg (by simpa using hin)]
      exact h n2 hmem

/-- C1: if every node's committed position classifies interior under the
voxel grid, then after any number of substeps (hence after any number of
full ticks of `SUB_STEPS` substeps) every node's committed position still
classifies interior; moreover, whenever integration moves a node to a
position whose cell is exterior or out of grid, the node is committed
with its pre-substep position and its velocity scaled by `-0.3`. -/
theorem subStep_preserves_inside (sq : ℚ → ℚ) (P : SimParams) (b : Bounds)
    (vox : ℕ → ℕ) (targets : List Vec3) (dt : ℚ) (st : List Neuron × ℚ)
    (h : ∀ n ∈ st.1, isInside b vox n.pos = true) :
    (∀ k : ℕ, ∀ n ∈ (subStepN sq P b vox targets dt k st).1,
      isInside b vox n.pos = true) ∧
    ∀ (n : Neuron) (F : Vec3),
      isInside b vox (n.pos + dt • (P.damping • (n.vel + dt • F))) = false →
      integrateNode P b vox dt n F =
        (⟨n.pos, n.pos, ((-3 : ℚ) / 10) • (P.damping • (n.vel + dt • F)),
            n.layer⟩,
          (P.damping • (n.vel + dt • F)).lenSq) := by
  constructor
  · intro k
    induction k generalizing st with
    | zero => exact h
    | succ k ih =>
        rw [subStepN]
        exact ih _ (subStep_mem_inside sq P b vox targets dt st h)
  · intro n F hout
    rw [integrateNode, if_neg (by simp [hout])]

/-- Bounds of the concrete witness scenario: the normalized 10-unit cube
centred at the origin. -/
def bCube : Bounds := ⟨⟨-5, -5, -5⟩, ⟨5, 5, 5⟩, ⟨10, 10, 10⟩⟩

/-- A voxel grid whose every cell is interior. -/
def voxAll : ℕ → ℕ := fun _ => 1

/-- C1, witness: the invariant applied for two substeps to one node
seeded at the grid centre of the all-interior cube. -/
theorem subStep_preserves_inside_witness :
    ((subStepN (fun _ => 0) defaultParams bCube voxAll [] FIXED_DT 2
        ([⟨⟨0, 0, 0⟩, ⟨0, 0, 0⟩, ⟨1, 0, 0⟩, 0⟩], 0)).1.all fun n =>
      isInside bCube voxAll n.pos) = true := by
  rw [List.all_eq_true]
  exact (subStep_preserves_inside (fun _ => 0) defaultParams bCube voxAll []
    FIXED_DT ([⟨⟨0, 0, 0⟩, ⟨0, 0, 0⟩, ⟨1, 0, 0⟩, 0⟩], 0)
    (by
      intro n hn
      simp only [List.mem_singleton] at hn
      subst hn
      norm_num [isInside, cellCoord, bCube, voxAll, GRID_SIZE])).1 2

theorem Vec3.sub_mk (a b c d e f : ℚ) :
    Vec3.mk a b c - Vec3.mk d e f = ⟨a - d, b - e, c - f⟩ := rfl

theorem Vec3.add_mk (a b c d e f : ℚ) :
    Vec3.mk a b c + Vec3.mk d e f = ⟨a + d, b + e, c + f⟩ := rfl

theorem Vec3.smul_mk (s a b c : ℚ) :
    s • Vec3.mk a b c = ⟨s * a, s * b, s * c⟩ := rfl

theorem Vec3.lenSq_mk (a b c : ℚ) :
    (Vec3.mk a b c).lenSq = a * a + b * b + c * c := rfl

theorem Vec3.zero_def : Vec3.zero = ⟨0, 0, 0⟩ := rfl

theorem Vec3.lenSq_nonneg (v : Vec3) : 0 ≤ v.lenSq := by
  rw [Vec3.lenSq]
  have hx := mul_self_nonneg v.x
  have hy := mul_self_nonneg v.y
  have hz := mul_self_nonneg v.z
  linarith

theorem Vec3.lenSq_eq_zero {v : Vec3} : v.lenSq = 0 ↔ v = Vec3.zero := by
  constructor
  · intro h
    rw [Vec3.lenSq] at h
    have hx : v.x * v.x = 0 :=
      le_antisymm (by nlinarith [mul_self_nonneg v.y, mul_self_nonneg v.z])
        (mul_self_nonneg v.x)
    have hy : v.y * v.y = 0 :=
      le_antisymm (by nlinarith [mul_self_nonneg v.x, mul_self_nonneg v.z])
        (mul_self_nonneg v.y)
    have hz : v.z * v.z = 0 :=
      le_antisymm (by nlinarith [mul_self_nonneg v.x, mul_self_nonneg v.y])
        (mul_self_nonneg v.z)
    exact Vec3.ext_xyz (mul_self_eq_zero.mp hx) (mul_self_eq_zero.mp hy)
      (mul_self_eq_zero.mp hz)
  · rintro rfl
    simp [Vec3.lenSq, Vec3.zero]

theorem Vec3.smul_smul' (a b : ℚ) (v : Vec3) :
    a • (b • v) = (a * b) • v := by
  refine Vec3.ext_xyz ?_ ?_ ?_ <;>
    simp only [Vec3.smul_x, Vec3.smul_y, Vec3.smul_z] <;> ring

theorem Vec3.lenSq_smul (a : ℚ) (v : Vec3) :
    (a • v).lenSq = a ^ 2 * v.lenSq := by
  simp only [Vec3.lenSq, Vec3.smul_x, Vec3.smul_y, Vec3.smul_z]
  ring

theorem getD_set_self {l : List Vec3} {i : ℕ} (a d : Vec3)
    (h : i < l.length) : (l.set i a).getD i d = a := by
  rw [List.getD_eq_getElem?_getD, List.getElem?_set_self h, Option.getD_some]

theorem getD_set_ne {l : List Vec3} {i j : ℕ} (h : i ≠ j) (a d : Vec3) :
    (l.set i a).getD j d = l.getD j d := by
  rw [List.getD_eq_getElem?_getD, List.getElem?_set_ne h,
    ← List.getD_eq_getElem?_getD]

/-- C2, counterexample.  For two nodes at the same position the applied
repulsion force is the zero vector (three.js `normalize` leaves the zero
vector unchanged), while the claimed magnitude
`kRepel / max(squaredDistance, minDistanceSquared)` is positive: at the
default `kRepel = 0.6` the claimed squared magnitude is `(20/3)² ≠ 0`
but both accumulated forces stay zero. -/
theorem repulsion_coincident_counterexample :
    repulsionForces (fun _ => 0) (6/10) [⟨1, 2, 3⟩, ⟨1, 2, 3⟩] =
      [Vec3.zero, Vec3.zero] ∧
    Vec3.lenSq Vec3.zero = 0 ∧
    ((6/10 : ℚ) /
      max (Vec3.lenSq (Vec3.mk 1 2 3 - Vec3.mk 1 2 3)) MIN_DIST_SQ) ^ 2 ≠
      0 := by
  have hp : pairList 2 = [(0, 1)] := by decide
  refine ⟨?_, by simp [Vec3.lenSq_mk, Vec3.zero_def], ?_⟩
  · norm_num [repulsionForces, hp, applyRepel, repelPairForce,
      Vec3.normalizeW, Vec3.sub_mk, Vec3.add_mk, Vec3.smul_mk,
      Vec3.lenSq_mk, Vec3.zero_def, MIN_DIST_SQ, List.getD, List.replicate]
  · norm_num [Vec3.sub_mk, Vec3.lenSq_mk, MIN_DIST_SQ]

/-- C2, amended.  For every unordered pair of nodes at distinct
positions, assuming `Math.sqrt` is exact at the pair's squared distance
and the repulsion coefficient is positive: the applied pair force has
squared magnitude `(kRepel / max(squaredDistance, MIN_DIST_SQ))²` with
`MIN_DIST_SQ = 0.09 = (0.3 units)²`, it is a positive multiple of the
separation vector (directed along the normalized separation), and the
loop body applies it equal and opposite: it is added to node `i`'s
accumulator and subtracted from node `j`'s.  For a coincident pair the
applied force is zero instead (see the counterexample). -/
theorem repelPairForce_spec (sq : ℚ → ℚ) (kR : ℚ) (p q : Vec3)
    (hsq : sq ((p - q).lenSq) * sq ((p - q).lenSq) = (p - q).lenSq)
    (hpos : 0 ≤ sq ((p - q).lenSq)) (hk : 0 < kR) (hne : p ≠ q) :
    (repelPairForce sq kR p q).lenSq =
      (kR / max (p - q).lenSq MIN_DIST_SQ) ^ 2 ∧
    (∃ c : ℚ, 0 < c ∧ repelPairForce sq kR p q = c • (p - q)) ∧
    ∀ (ps fs : List Vec3) (i j : ℕ), i < fs.length → j < fs.length →
      i ≠ j → ps.getD i Vec3.zero = p → ps.getD j Vec3.zero = q →
      (applyRepel sq kR ps fs (i, j)).getD i Vec3.zero =
          fs.getD i Vec3.zero + repelPairForce sq kR p q ∧
        (applyRepel sq kR ps fs (i, j)).getD j Vec3.zero =
          fs.getD j Vec3.zero - repelPairForce sq kR p q := by
  have hd0 : p - q ≠ Vec3.zero := by
    intro h0
    apply hne
    have hx := congrArg Vec3.x h0
    have hy := congrArg Vec3.y h0
    have hz := congrArg Vec3.z h0
    rw [Vec3.sub_x] at hx
    rw [Vec3.sub_y] at hy
    rw [Vec3.sub_z] at hz
    refine Vec3.ext_xyz ?_ ?_ ?_ <;>
      simp only [Vec3.zero] at hx hy hz <;> linarith
  have hlpos : 0 < (p - q).lenSq :=
    lt_of_le_of_ne (Vec3.lenSq_nonneg _)
      fun h => hd0 (Vec3.lenSq_eq_zero.mp h.symm)
  have hlen0 : sq ((p - q).lenSq) ≠ 0 := by
    intro h
    rw [h, mul_zero] at hsq
    exact absurd hsq.symm (ne_of_gt hlpos)
  have hlenpos : 0 < sq ((p - q).lenSq) := lt_of_le_of_ne hpos (Ne.symm hlen0)
  have hnorm : (p - q).normalizeW sq = (1 / sq ((p - q).lenSq)) • (p - q) := by
    rw [Vec3.normalizeW, if_neg hlen0]
  have hmaxpos : 0 < max (p - q).lenSq MIN_DIST_SQ :=
    lt_max_iff.mpr (Or.inr (by norm_num [MIN_DIST_SQ]))
  have hf : repelPairForce sq kR p q =
      (kR / max (p - q).lenSq MIN_DIST_SQ * (1 / sq ((p - q).lenSq))) •
        (p - q) := by
    rw [repelPairForce, hnorm, Vec3.smul_smul']
  refine ⟨?_, ?_, ?_⟩
  · rw [hf, Vec3.lenSq_smul]
    have hcancel : (1 / sq ((p - q).lenSq)) ^ 2 * (p - q).lenSq = 1 := by
      set s := sq ((p - q).lenSq) with hs
      rw [← hsq]
      field_simp
      ring
    calc (kR / max (p - q).lenSq MIN_DIST_SQ * (1 / sq ((p - q).lenSq))) ^ 2 *
          (p - q).lenSq
        = (kR / max (p - q).lenSq MIN_DIST_SQ) ^ 2 *
            ((1 / sq ((p - q).lenSq)) ^ 2 * (p - q).lenSq) := by ring
      _ = (kR / max (p - q).lenSq MIN_DIST_SQ) ^ 2 := by
          rw [hcancel, mul_one]
  · refine ⟨kR / max (p - q).lenSq MIN_DIST_SQ * (1 / sq ((p - q).lenSq)),
      ?_, hf⟩
    have h1 : 0 < kR / max (p - q).lenSq MIN_DIST_SQ := div_pos hk hmaxpos
    have h2 : 0 < 1 / sq ((p - q).lenSq) := by
      rw [one_div]
      exact inv_pos.mpr hlenpos
    exact mul_pos h1 h2
  · intro ps fs i j hi hj hij hpi hpj
    have happ : applyRepel sq kR ps fs (i, j) =
        (fs.set i (fs.getD i Vec3.zero + repelPairForce sq kR p q)).set j
          ((fs.set i (fs.getD i Vec3.zero + repelPairForce sq kR p q)).getD j
              Vec3.zero -
            repelPairForce sq kR p q) := by
      rw [applyRepel, hpi, hpj]
    rw [happ]
    constructor
    · rw [getD_set_ne hij.symm, getD_set_self _ _ hi]
    · rw [getD_set_self _ _ (by rw [List.length_set]; exact hj),
        getD_set_ne hij]

/-- C2, witness: the amended pair-force theorem at a unit separation
(where `Math.sqrt` is exactly `1`), instantiated for a concrete
two-node system. -/
theorem repelPairForce_spec_witness :
    (repelPairForce (fun _ => 1) (6/10) ⟨1, 0, 0⟩ ⟨0, 0, 0⟩).lenSq =
      ((6/10 : ℚ) /
        max (Vec3.mk 1 0 0 - Vec3.mk 0 0 0).lenSq MIN_DIST_SQ) ^ 2 ∧
    ∃ c : ℚ, 0 < c ∧
      repelPairForce (fun _ => 1) (6/10) ⟨1, 0, 0⟩ ⟨0, 0, 0⟩ =
        c • (Vec3.mk 1 0 0 - Vec3.mk 0 0 0) := by
  have h := repelPairForce_spec (fun _ => 1) (6/10) ⟨1, 0, 0⟩ ⟨0, 0, 0⟩
    (by norm_num [Vec3.sub_mk, Vec3.lenSq_mk])
    (by norm_num) (by norm_num)
    (by
      intro h0
      have := congrArg Vec3.x h0
      norm_num at this)
  exact ⟨h.1, h.2.1⟩

theorem integrateNode_snd (P : SimParams) (b : Bounds) (vox : ℕ → ℕ)
    (dt : ℚ) (n : Neuron) (F : Vec3) :
    (integrateNode P b vox dt n F).2 =
      (P.damping • (n.vel + dt • F)).lenSq := by
  rw [integrateNode]
  split_ifs <;> rfl

theorem applyRepel_length (sq : ℚ → ℚ) (kR : ℚ) (ps fs : List Vec3)
    (ij : ℕ × ℕ) : (applyRepel sq kR ps fs ij).length = fs.length := by
  rw [applyRepel]
  simp [List.length_set]

theorem repulsionForces_length (sq : ℚ → ℚ) (kR : ℚ) (ps : List Vec3) :
    (repulsionForces sq kR ps).length = ps.length := by
  rw [repulsionForces]
  have hfold : ∀ (l : List (ℕ × ℕ)) (fs : List Vec3),
      (l.foldl (applyRepel sq kR ps) fs).length = fs.length := by
    intro l
    induction l with
    | nil => intro fs; rfl
    | cons a rest ih =>
        intro fs
        rw [List.foldl_cons, ih, applyRepel_length]
  rw [hfold, List.length_replicate]

theorem computeForces_length (sq : ℚ → ℚ) (P : SimParams) (b : Bounds)
    (vox : ℕ → ℕ) (targets : List Vec3) (ns : List Neuron) :
    (computeForces sq P b vox targets ns).length = ns.length := by
  rw [computeForces]
  simp [List.length_zip, repulsionForces_length]

theorem subStep_fst_length (sq : ℚ → ℚ) (P : SimParams) (b : Bounds)
    (vox : ℕ → ℕ) (targets : List Vec3) (dt : ℚ) (st : List Neuron × ℚ) :
    (subStep sq P b vox targets dt st).1.length = st.1.length := by
  rw [subStep]
  split_ifs with h
  · rfl
  · simp [List.length_zip, computeForces_length]

theorem subStep_energy (sq : ℚ → ℚ) (P : SimParams) (b : Bounds)
    (vox : ℕ → ℕ) (targets : List Vec3) (dt : ℚ) (st : List Neuron × ℚ)
    (h : st.1 ≠ []) :
    (subStep sq P b vox targets dt st).2 =
      preclampMean sq P b vox targets dt st.1 := by
  rw [subStep, if_neg (by simpa using h), preclampMean]
  show (List.map Prod.snd
      (List.map (fun nf => integrateNode P b vox dt nf.1 nf.2)
        (st.1.zip (computeForces sq P b vox targets st.1)))).sum /
      (st.1.length : ℚ) = _
  rw [List.map_map]
  congr 1
  refine congrArg List.sum ?_
  apply List.map_congr_left
  intro nf hnf
  simp only [Function.comp_apply]
  exact integrateNode_snd P b vox dt nf.1 nf.2

theorem subStepN_succ_comm (sq : ℚ → ℚ) (P : SimParams) (b : Bounds)
    (vox : ℕ → ℕ) (targets : List Vec3) (dt : ℚ) (k : ℕ)
    (st : List Neuron × ℚ) :
    subStepN sq P b vox targets dt (k + 1) st =
      subStep sq P b vox targets dt (subStepN sq P b vox targets dt k st) := by
  induction k generalizing st with
  | zero => rfl
  | succ k ih =>
      have e1 : subStepN sq P b vox targets dt (k + 1 + 1) st =
          subStepN sq P b vox targets dt (k + 1)
            (subStep sq P b vox targets dt st) := rfl
      rw [e1, ih]
      rfl

theorem subStepN_fst_length (sq : ℚ → ℚ) (P : SimParams) (b : Bounds)
    (vox : ℕ → ℕ) (targets : List Vec3) (dt : ℚ) (k : ℕ)
    (st : List Neuron × ℚ) :
    (subStepN sq P b vox targets dt k st).1.length = st.1.length := by
  induction k generalizing st with
  | zero => rfl
  | succ k ih =>
      have e1 : subStepN sq P b vox targets dt (k + 1) st =
          subStepN sq P b vox targets dt k
            (subStep sq P b vox targets dt st) := rfl
      rw [e1, ih, subStep_fst_length]

/-- C5, amended.  After a full tick (3 substeps of fixed `dt`) the exposed
`energy` equals the mean over all nodes of the squared velocity measured
immediately after the velocity update of the tick's final substep
(velocity += force × dt, then velocity ×= dampingFactor) but before the
hard containment clamp; the committed velocity of each node is either
that pre-clamp velocity or, when the containment check reverts the node,
`-0.3` times it — in the latter case the committed mean squared velocity
differs from `energy`. -/
theorem energy_preclamp_mean (sq : ℚ → ℚ) (P : SimParams) (b : Bounds)
    (vox : ℕ → ℕ) (targets : List Vec3) (dt : ℚ) (st : List Neuron × ℚ)
    (h : st.1 ≠ []) :
    (subStepN sq P b vox targets dt 3 st).2 =
      preclampMean sq P b vox targets dt
        (subStepN sq P b vox targets dt 2 st).1 ∧
    ∀ (n : Neuron) (F : Vec3),
      (integrateNode P b vox dt n F).1.vel = P.damping • (n.vel + dt • F) ∨
      (integrateNode P b vox dt n F).1.vel =
        ((-3 : ℚ) / 10) • (P.damping • (n.vel + dt • F)) := by
  constructor
  · have e3 := subStepN_succ_comm sq P b vox targets dt 2 st
    have hne : (subStepN sq P b vox targets dt 2 st).1 ≠ [] := by
      intro hnil
      have := subStepN_fst_length sq P b vox targets dt 2 st
      rw [hnil] at this
      exact h (List.eq_nil_of_length_eq_zero this.symm)
    rw [show (3 : ℕ) = 2 + 1 from rfl, e3]
    exact subStep_energy sq P b vox targets dt _ hne
  · intro n F
    rw [integrateNode]
    split_ifs
    · left; rfl
    · right; rfl

/-- C5, witness: the tick-energy theorem applied to a concrete one-node
state, with the instance of the committed-velocity disjunction at a
concrete node. -/
theorem energy_preclamp_mean_witness :
    (subStepN (fun _ => 0) defaultParams bCube voxAll [] FIXED_DT 3
        ([⟨⟨0, 0, 0⟩, ⟨0, 0, 0⟩, ⟨1, 0, 0⟩, 0⟩], 0)).2 =
      preclampMean (fun _ => 0) defaultParams bCube voxAll [] FIXED_DT
        (subStepN (fun _ => 0) defaultParams bCube voxAll [] FIXED_DT 2
          ([⟨⟨0, 0, 0⟩, ⟨0, 0, 0⟩, ⟨1, 0, 0⟩, 0⟩], 0)).1 ∧
    ((integrateNode defaultParams bCube voxAll FIXED_DT
        ⟨⟨0, 0, 0⟩, ⟨0, 0, 0⟩, ⟨1, 0, 0⟩, 0⟩ Vec3.zero).1.vel =
      defaultParams.damping • (Vec3.mk 1 0 0 + FIXED_DT • Vec3.zero) ∨
    (integrateNode defaultParams bCube voxAll FIXED_DT
        ⟨⟨0, 0, 0⟩, ⟨0, 0, 0⟩, ⟨1, 0, 0⟩, 0⟩ Vec3.zero).1.vel =
      ((-3 : ℚ) / 10) •
        (defaultParams.damping • (Vec3.mk 1 0 0 + FIXED_DT • Vec3.zero))) := by
  have h := energy_preclamp_mean (fun _ => 0) defaultParams bCube voxAll []
    FIXED_DT ([⟨⟨0, 0, 0⟩, ⟨0, 0, 0⟩, ⟨1, 0, 0⟩, 0⟩], 0) (by simp)
  exact ⟨h.1, h.2 ⟨⟨0, 0, 0⟩, ⟨0, 0, 0⟩, ⟨1, 0, 0⟩, 0⟩ Vec3.zero⟩

theorem foldl_skip {β : Type} (g : Vec3 → β → Vec3) (c : β → Prop)
    [DecidablePred c] :
    ∀ (l : List β) (acc : Vec3), (∀ o ∈ l, ¬c o) →
      l.foldl (fun a o => if c o then g a o else a) acc = acc := by
  intro l
  induction l with
  | nil => intro acc _; rfl
  | cons o rest ih =>
      intro acc h
      rw [List.foldl_cons, if_neg (h o (by simp))]
      exact ih acc fun x hx => h x (by simp [hx])

theorem boundaryForce_zero (sq : ℚ → ℚ) (kB : ℚ) (b : Bounds)
    (vox : ℕ → ℕ) (p : Vec3) (cx cy cz : ℤ)
    (h1 : cellCoord b.min.x b.size.x p.x = cx)
    (h2 : cellCoord b.min.y b.size.y p.y = cy)
    (h3 : cellCoord b.min.z b.size.z p.z = cz)
    (hall : ∀ o ∈ neighborOffsets,
      ¬(cx + o.1 < 0 ∨ (GRID_SIZE : ℤ) ≤ cx + o.1 ∨ cy + o.2.1 < 0 ∨
        (GRID_SIZE : ℤ) ≤ cy + o.2.1 ∨ cz + o.2.2 < 0 ∨
        (GRID_SIZE : ℤ) ≤ cz + o.2.2 ∨
        vox ((cx + o.1) * (GRID_SIZE : ℤ) * (GRID_SIZE : ℤ) +
          (cy + o.2.1) * (GRID_SIZE : ℤ) + (cz + o.2.2)).toNat = 0)) :
    boundaryForce sq kB b vox p = Vec3.zero := by
  rw [boundaryForce, h1, h2, h3]
  exact foldl_skip _ _ neighborOffsets Vec3.zero hall

set_option maxRecDepth 4000 in
/-- C5, counterexample.  One node at the grid centre of the all-interior
cube with a large velocity: in every substep the integrated position
leaves the grid, so the node is reverted and its committed velocity is
`-0.3` times the pre-clamp velocity — after the full tick the exposed
`energy` (accumulated from the pre-clamp velocities, source line 366)
differs from the mean squared committed velocity. -/
theorem energy_committed_counterexample :
    (subStepN (fun _ => 0) defaultParams bCube voxAll [] FIXED_DT 3
        ([⟨⟨0, 0, 0⟩, ⟨0, 0, 0⟩, ⟨1000000, 0, 0⟩, 0⟩], 0)).2 ≠
      ((subStepN (fun _ => 0) defaultParams bCube voxAll [] FIXED_DT 3
          ([⟨⟨0, 0, 0⟩, ⟨0, 0, 0⟩, ⟨1000000, 0, 0⟩, 0⟩], 0)).1.map fun n =>
        n.vel.lenSq).sum /
        ((subStepN (fun _ => 0) defaultParams bCube voxAll [] FIXED_DT 3
          ([⟨⟨0, 0, 0⟩, ⟨0, 0, 0⟩, ⟨1000000, 0, 0⟩, 0⟩], 0)).1.length : ℚ) := by
  have hb : boundaryForce (fun _ => 0) (4/10) bCube voxAll ⟨0, 0, 0⟩ =
      Vec3.zero := by
    refine boundaryForce_zero (fun _ => 0) (4/10) bCube voxAll ⟨0, 0, 0⟩
      16 16 16 ?_ ?_ ?_ ?_
    · norm_num [cellCoord, bCube, GRID_SIZE]
    · norm_num [cellCoord, bCube, GRID_SIZE]
    · norm_num [cellCoord, bCube, GRID_SIZE]
    · decide
  have hcf : ∀ v : Vec3,
      computeForces (fun _ => 0) defaultParams bCube voxAll []
        [⟨⟨0, 0, 0⟩, ⟨0, 0, 0⟩, v, 0⟩] = [Vec3.zero] := by
    intro v
    have hp1 : pairList 1 = [] := by decide
    rw [computeForces]
    show List.map _ (List.zip _ (repulsionForces _ _ _)) = _
    rw [repulsionForces]
    simp only [List.map_cons, List.map_nil, List.length_cons,
      List.length_nil, hp1, List.foldl_nil, List.replicate,
      List.zip_cons_cons, List.zip_nil_right, List.zip_nil_left]
    rw [defaultParams]
    show [Vec3.zero + layerForce (4/100) [] 0 ⟨0, 0, 0⟩ +
      boundaryForce (fun _ => 0) (4/10) bCube voxAll ⟨0, 0, 0⟩] = _
    rw [hb, layerForce]
    simp [Vec3.zero_def, Vec3.add_mk]
  have h1 : subStep (fun _ => 0) defaultParams bCube voxAll [] FIXED_DT
      ([⟨⟨0, 0, 0⟩, ⟨0, 0, 0⟩, ⟨1000000, 0, 0⟩, 0⟩], 0) =
      ([⟨⟨0, 0, 0⟩, ⟨0, 0, 0⟩, ⟨-255000, 0, 0⟩, 0⟩], 722500000000) := by
    rw [subStep]
    rw [if_neg (by simp)]
    rw [hcf]
    norm_num [integrateNode, isInside, cellCoord, bCube, voxAll, GRID_SIZE,
      defaultParams, FIXED_DT, Vec3.zero_def, Vec3.add_mk, Vec3.smul_mk,
      Vec3.lenSq_mk, Vec3.mk.injEq]
  have h2 : subStep (fun _ => 0) defaultParams bCube voxAll [] FIXED_DT
      ([⟨⟨0, 0, 0⟩, ⟨0, 0, 0⟩, ⟨-255000, 0, 0⟩, 0⟩], 722500000000) =
      ([⟨⟨0, 0, 0⟩, ⟨0, 0, 0⟩, ⟨65025, 0, 0⟩, 0⟩], 46980562500) := by
    rw [subStep]
    rw [if_neg (by simp)]
    rw [hcf]
    norm_num [integrateNode, isInside, cellCoord, bCube, voxAll, GRID_SIZE,
      defaultParams, FIXED_DT, Vec3.zero_def, Vec3.add_mk, Vec3.smul_mk,
      Vec3.lenSq_mk, Vec3.mk.injEq]
  have h3 : subStep (fun _ => 0) defaultParams bCube voxAll [] FIXED_DT
      ([⟨⟨0, 0, 0⟩, ⟨0, 0, 0⟩, ⟨65025, 0, 0⟩, 0⟩], 46980562500) =
      ([⟨⟨0, 0, 0⟩, ⟨0, 0, 0⟩, ⟨-132651/8, 0, 0⟩, 0⟩], 48878577225/16) := by
    rw [subStep]
    rw [if_neg (by simp)]
    rw [hcf]
    norm_num [integrateNode, isInside, cellCoord, bCube, voxAll, GRID_SIZE,
      defaultParams, FIXED_DT, Vec3.zero_def, Vec3.add_mk, Vec3.smul_mk,
      Vec3.lenSq_mk, Vec3.mk.injEq]
  have hN : subStepN (fun _ => 0) defaultParams bCube voxAll [] FIXED_DT 3
      ([⟨⟨0, 0, 0⟩, ⟨0, 0, 0⟩, ⟨1000000, 0, 0⟩, 0⟩], 0) =
      ([⟨⟨0, 0, 0⟩, ⟨0, 0, 0⟩, ⟨-132651/8, 0, 0⟩, 0⟩], 48878577225/16) := by
    have e1 : subStepN (fun _ => 0) defaultParams bCube voxAll [] FIXED_DT 3
        ([⟨⟨0, 0, 0⟩, ⟨0, 0, 0⟩, ⟨1000000, 0, 0⟩, 0⟩], 0) =
        subStepN (fun _ => 0) defaultParams bCube voxAll [] FIXED_DT 2
          (subStep (fun _ => 0) defaultParams bCube voxAll [] FIXED_DT
            ([⟨⟨0, 0, 0⟩, ⟨0, 0, 0⟩, ⟨1000000, 0, 0⟩, 0⟩], 0)) := rfl
    rw [e1, h1]
    have e2 : subStepN (fun _ => 0) defaultParams bCube voxAll [] FIXED_DT 2
        ([⟨⟨0, 0, 0⟩, ⟨0, 0, 0⟩, ⟨-255000, 0, 0⟩, 0⟩], 722500000000) =
        subStepN (fun _ => 0) defaultParams bCube voxAll [] FIXED_DT 1
          (subStep (fun _ => 0) defaultParams bCube voxAll [] FIXED_DT
            ([⟨⟨0, 0, 0⟩, ⟨0, 0, 0⟩, ⟨-255000, 0, 0⟩, 0⟩], 722500000000)) :=
      rfl
    rw [e2, h2]
    have e3 : subStepN (fun _ => 0) defaultParams bCube voxAll [] FIXED_DT 1
        ([⟨⟨0, 0, 0⟩, ⟨0, 0, 0⟩, ⟨65025, 0, 0⟩, 0⟩], 46980562500) =
        subStep (fun _ => 0) defaultParams bCube voxAll [] FIXED_DT
          ([⟨⟨0, 0, 0⟩, ⟨0, 0, 0⟩, ⟨65025, 0, 0⟩, 0⟩], 46980562500) := rfl
    rw [e3, h3]
  rw [hN]
  norm_num [Vec3.lenSq_mk]

/-- One `expandByPoint` step of `Box3` for the minimum corner. -/
def minStep (m w : Vec3) : Vec3 := ⟨min m.x w.x, min m.y w.y, min m.z w.z⟩

/-- One `expandByPoint` step of `Box3` for the maximum corner. -/
def maxStep (m w : Vec3) : Vec3 := ⟨max m.x w.x, max m.y w.y, max m.z w.z⟩

/-- Bounding-box minimum corner of a vertex list
(`geometry.computeBoundingBox`); the empty list, never produced by a
parsed STL geometry, is mapped to the zero vector. -/
def bboxMin : List Vec3 → Vec3
  | [] => Vec3.zero
  | v :: vs => vs.foldl minStep v

/-- Bounding-box maximum corner of a vertex list. -/
def bboxMax : List Vec3 → Vec3
  | [] => Vec3.zero
  | v :: vs => vs.foldl maxStep v

/-- The bounding-box centre `getCenter`, `(min + max) · 0.5` (source
lines 50-51). -/
def meshCenter (vs : List Vec3) : Vec3 :=
  (1/2 : ℚ) • (bboxMin vs + bboxMax vs)

/-- `geo.translate(-cent.x, -cent.y, -cent.z)` (source line 52). -/
def translatedMesh (vs : List Vec3) : List Vec3 :=
  vs.map fun v => v - meshCenter vs

/-- `Math.max(sizeV.x, sizeV.y, sizeV.z)` of a vertex list's
bounding-box size `getSize = max - min` (source lines 54-57). -/
def meshMaxDim (vs : List Vec3) : ℚ :=
  max (bboxMax vs - bboxMin vs).x
    (max (bboxMax vs - bboxMin vs).y (bboxMax vs - bboxMin vs).z)

/-- Mesh normalization of `loadFile` (source lines 48-67): translate the
vertices by minus the bounding-box centre, recompute the box, scale
uniformly by `s = 10 / maxDim` (source lines 58-59), and record the
resulting bounds `{min, max, size}` (source lines 61-67). -/
def normalizeMesh (vs : List Vec3) : List Vec3 × Bounds :=
  let t := translatedMesh vs
  let s := 10 / meshMaxDim t
  let sc := t.map fun v => s • v
  (sc, ⟨bboxMin sc, bboxMax sc, bboxMax sc - bboxMin sc⟩)

theorem minStep_sub (m w c : Vec3) :
    minStep (m - c) (w - c) = minStep m w - c := by
  refine Vec3.ext_xyz ?_ ?_ ?_ <;>
    simp only [minStep, Vec3.sub_x, Vec3.sub_y, Vec3.sub_z] <;>
    exact min_sub_sub_right _ _ _

theorem maxStep_sub (m w c : Vec3) :
    maxStep (m - c) (w - c) = maxStep m w - c := by
  refine Vec3.ext_xyz ?_ ?_ ?_ <;>
    simp only [maxStep, Vec3.sub_x, Vec3.sub_y, Vec3.sub_z] <;>
    exact max_sub_sub_right _ _ _

theorem minStep_smul {s : ℚ} (hs : 0 ≤ s) (m w : Vec3) :
    minStep (s • m) (s • w) = s • minStep m w := by
  refine Vec3.ext_xyz ?_ ?_ ?_ <;>
    simp only [minStep, Vec3.smul_x, Vec3.smul_y, Vec3.smul_z] <;>
    exact (mul_min_of_nonneg _ _ hs).symm

theorem maxStep_smul {s : ℚ} (hs : 0 ≤ s) (m w : Vec3) :
    maxStep (s • m) (s • w) = s • maxStep m w := by
  refine Vec3.ext_xyz ?_ ?_ ?_ <;>
    simp only [maxStep, Vec3.smul_x, Vec3.smul_y, Vec3.smul_z] <;>
    exact (mul_max_of_nonneg _ _ hs).symm

theorem foldl_minStep_sub (c : Vec3) :
    ∀ (vs : List Vec3) (v : Vec3),
      (vs.map fun w => w - c).foldl minStep (v - c) =
        vs.foldl minStep v - c := by
  intro vs
  induction vs with
  | nil => intro v; rfl
  | cons w rest ih =>
      intro v
      rw [List.map_cons, List.foldl_cons, List.foldl_cons, minStep_sub, ih]

theorem foldl_maxStep_sub (c : Vec3) :
    ∀ (vs : List Vec3) (v : Vec3),
      (vs.map fun w => w - c).foldl maxStep (v - c) =
        vs.foldl maxStep v - c := by
  intro vs
  induction vs with
  | nil => intro v; rfl
  | cons w rest ih =>
      intro v
      rw [List.map_cons, List.foldl_cons, List.foldl_cons, maxStep_sub, ih]

theorem foldl_minStep_smul {s : ℚ} (hs : 0 ≤ s) :
    ∀ (vs : List Vec3) (v : Vec3),
      (vs.map fun w => s • w).foldl minStep (s • v) =
        s • vs.foldl minStep v := by
  intro vs
  induction vs with
  | nil => intro v; rfl
  | cons w rest ih =>
      intro v
      rw [List.map_cons, List.foldl_cons, List.foldl_cons, minStep_smul hs, ih]

theorem foldl_maxStep_smul {s : ℚ} (hs : 0 ≤ s) :
    ∀ (vs : List Vec3) (v : Vec3),
      (vs.map fun w => s • w).foldl maxStep (s • v) =
        s • vs.foldl maxStep v := by
  intro vs
  induction vs with
  | nil => intro v; rfl
  | cons w rest ih =>
      intro v
      rw [List.map_cons, List.foldl_cons, List.foldl_cons, maxStep_smul hs, ih]

theorem bboxMin_map_sub (c : Vec3) {vs : List Vec3} (h : vs ≠ []) :
    bboxMin (vs.map fun w => w - c) = bboxMin vs - c := by
  match vs with
  | [] => exact absurd rfl h
  | v :: rest =>
      rw [List.map_cons]
      show (rest.map fun w => w - c).foldl minStep (v - c) = _
      rw [foldl_minStep_sub]
      rfl

theorem bboxMax_map_sub (c : Vec3) {vs : List Vec3} (h : vs ≠ []) :
    bboxMax (vs.map fun w => w - c) = bboxMax vs - c := by
  match vs with
  | [] => exact absurd rfl h
  | v :: rest =>
      rw [List.map_cons]
      show (rest.map fun w => w - c).foldl maxStep (v - c) = _
      rw [foldl_maxStep_sub]
      rfl

theorem bboxMin_map_smul {s : ℚ} (hs : 0 ≤ s) {vs : List Vec3}
    (h : vs ≠ []) :
    bboxMin (vs.map fun w => s • w) = s • bboxMin vs := by
  match vs with
  | [] => exact absurd rfl h
  | v :: rest =>
      rw [List.map_cons]
      show (rest.map fun w => s • w).foldl minStep (s • v) = _
      rw [foldl_minStep_smul hs]
      rfl

theorem bboxMax_map_smul {s : ℚ} (hs : 0 ≤ s) {vs : List Vec3}
    (h : vs ≠ []) :
    bboxMax (vs.map fun w => s • w) = s • bboxMax vs := by
  match vs with
  | [] => exact absurd rfl h
  | v :: rest =>
      rw [List.map_cons]
      show (rest.map fun w => s • w).foldl maxStep (s • v) = _
      rw [foldl_maxStep_smul hs]
      rfl

theorem meshMaxDim_translated {vs : List Vec3} (h : vs ≠ []) :
    meshMaxDim (translatedMesh vs) = meshMaxDim vs := by
  rw [meshMaxDim, meshMaxDim, translatedMesh, bboxMin_map_sub _ h,
    bboxMax_map_sub _ h]
  have hx : (bboxMax vs - meshCenter vs - (bboxMin vs - meshCenter vs)).x =
      (bboxMax vs - bboxMin vs).x := by
    simp only [Vec3.sub_x]; ring
  have hy : (bboxMax vs - meshCenter vs - (bboxMin vs - meshCenter vs)).y =
      (bboxMax vs - bboxMin vs).y := by
    simp only [Vec3.sub_y]; ring
  have hz : (bboxMax vs - meshCenter vs - (bboxMin vs - meshCenter vs)).z =
      (bboxMax vs - bboxMin vs).z := by
    simp only [Vec3.sub_z]; ring
  rw [hx, hy, hz]

/-- C8: mesh normalization applies the same affine map to every vertex
(so it is deterministic and touches only vertex coordinates, keeping the
triangle count and order — the topology — unchanged), and for a mesh
with positive largest dimension the result's bounding-box centre is the
origin and its largest bounding-box dimension is exactly `10`. -/
theorem normalizeMesh_spec (vs : List Vec3) (hne : vs ≠ [])
    (hdim : 0 < meshMaxDim vs) :
    (normalizeMesh vs).1 =
      vs.map (fun v => (10 / meshMaxDim vs) • (v - meshCenter vs)) ∧
    (normalizeMesh vs).1.length = vs.length ∧
    (1/2 : ℚ) •
      (bboxMin (normalizeMesh vs).1 + bboxMax (normalizeMesh vs).1) =
      Vec3.zero ∧
    max (normalizeMesh vs).2.size.x
      (max (normalizeMesh vs).2.size.y (normalizeMesh vs).2.size.z) = 10 := by
  have htne : translatedMesh vs ≠ [] := by
    rw [translatedMesh]
    intro h
    exact hne (List.map_eq_nil_iff.mp h)
  have hsdim : meshMaxDim (translatedMesh vs) = meshMaxDim vs :=
    meshMaxDim_translated hne
  have hspos : 0 < 10 / meshMaxDim vs := div_pos (by norm_num) hdim
  have hfst : (normalizeMesh vs).1 =
      (translatedMesh vs).map fun v => (10 / meshMaxDim vs) • v := by
    rw [normalizeMesh, hsdim]
  have hfst2 : (normalizeMesh vs).1 =
      vs.map fun v => (10 / meshMaxDim vs) • (v - meshCenter vs) := by
    rw [hfst, translatedMesh, List.map_map]
    rfl
  have hmin : bboxMin (normalizeMesh vs).1 =
      (10 / meshMaxDim vs) • (bboxMin vs - meshCenter vs) := by
    rw [hfst, bboxMin_map_smul hspos.le htne, translatedMesh,
      bboxMin_map_sub _ hne]
  have hmax : bboxMax (normalizeMesh vs).1 =
      (10 / meshMaxDim vs) • (bboxMax vs - meshCenter vs) := by
    rw [hfst, bboxMax_map_smul hspos.le htne, translatedMesh,
      bboxMax_map_sub _ hne]
  refine ⟨hfst2, by rw [hfst2, List.length_map], ?_, ?_⟩
  · rw [hmin, hmax]
    refine Vec3.ext_xyz ?_ ?_ ?_ <;>
      simp only [Vec3.smul_x, Vec3.smul_y, Vec3.smul_z, Vec3.add_x,
        Vec3.add_y, Vec3.add_z, Vec3.sub_x, Vec3.sub_y, Vec3.sub_z,
        meshCenter, Vec3.zero] <;> ring
  · have hsize : (normalizeMesh vs).2.size =
        bboxMax (normalizeMesh vs).1 - bboxMin (normalizeMesh vs).1 := rfl
    rw [hsize, hmin, hmax]
    have hx : ((10 / meshMaxDim vs) • (bboxMax vs - meshCenter vs) -
        (10 / meshMaxDim vs) • (bboxMin vs - meshCenter vs)).x =
        (10 / meshMaxDim vs) * (bboxMax vs - bboxMin vs).x := by
      simp only [Vec3.sub_x, Vec3.smul_x]; ring
    have hy : ((10 / meshMaxDim vs) • (bboxMax vs - meshCenter vs) -
        (10 / meshMaxDim vs) • (bboxMin vs - meshCenter vs)).y =
        (10 / meshMaxDim vs) * (bboxMax vs - bboxMin vs).y := by
      simp only [Vec3.sub_y, Vec3.smul_y]; ring
    have hz : ((10 / meshMaxDim vs) • (bboxMax vs - meshCenter vs) -
        (10 / meshMaxDim vs) • (bboxMin vs - meshCenter vs)).z =
        (10 / meshMaxDim vs) * (bboxMax vs - bboxMin vs).z := by
      simp only [Vec3.sub_z, Vec3.smul_z]; ring
    rw [hx, hy, hz, ← mul_max_of_nonneg _ _ hspos.le,
      ← mul_max_of_nonneg _ _ hspos.le]
    show 10 / meshMaxDim vs * meshMaxDim vs = 10
    rw [div_mul_cancel₀]
    exact ne_of_gt hdim

/-- C8, witness: normalization of a concrete three-vertex mesh. -/
theorem normalizeMesh_spec_witness :
    (normalizeMesh [⟨0, 0, 0⟩, ⟨4, 2, 0⟩, ⟨2, 0, 2⟩]).1 =
      ([⟨0, 0, 0⟩, ⟨4, 2, 0⟩, ⟨2, 0, 2⟩] : List Vec3).map
        (fun v => (10 / meshMaxDim [⟨0, 0, 0⟩, ⟨4, 2, 0⟩, ⟨2, 0, 2⟩]) •
          (v - meshCenter [⟨0, 0, 0⟩, ⟨4, 2, 0⟩, ⟨2, 0, 2⟩])) ∧
    (normalizeMesh [⟨0, 0, 0⟩, ⟨4, 2, 0⟩, ⟨2, 0, 2⟩]).1.length =
      ([⟨0, 0, 0⟩, ⟨4, 2, 0⟩, ⟨2, 0, 2⟩] : List Vec3).length ∧
    (1/2 : ℚ) •
      (bboxMin (normalizeMesh [⟨0, 0, 0⟩, ⟨4, 2, 0⟩, ⟨2, 0, 2⟩]).1 +
        bboxMax (normalizeMesh [⟨0, 0, 0⟩, ⟨4, 2, 0⟩, ⟨2, 0, 2⟩]).1) =
      Vec3.zero ∧
    max (normalizeMesh [⟨0, 0, 0⟩, ⟨4, 2, 0⟩, ⟨2, 0, 2⟩]).2.size.x
      (max (normalizeMesh [⟨0, 0, 0⟩, ⟨4, 2, 0⟩, ⟨2, 0, 2⟩]).2.size.y
        (normalizeMesh [⟨0, 0, 0⟩, ⟨4, 2, 0⟩, ⟨2, 0, 2⟩]).2.size.z) = 10 :=
  normalizeMesh_spec [⟨0, 0, 0⟩, ⟨4, 2, 0⟩, ⟨2, 0, 2⟩] (by simp)
    (by norm_num [meshMaxDim, bboxMin, bboxMax, minStep, maxStep,
      List.foldl_cons, List.foldl_nil, Vec3.sub_mk, Vec3.mk.injEq])

/-- Grid cell coordinates of one `InsideCache` entry (`{ix, iy, iz}`,
source line 216; the cache is built only from loop indices in
`[0, GRID_SIZE)`). -/
structure Cell where
  cix : ℕ
  ciy : ℕ
  ciz : ℕ
deriving DecidableEq, Repr

/-- Flat index of a cache cell into the voxel array
(`ix*G*G + iy*G + iz`). -/
def cellIdx (c : Cell) : ℕ :=
  c.cix * GRID_SIZE * GRID_SIZE + c.ciy * GRID_SIZE + c.ciz

/-- `_cellToWorld(ix, iy, iz)` (source lines 242-250): world-space centre
of a grid cell. -/
def cellToWorld (b : Bounds) (c : Cell) : Vec3 :=
  ⟨b.min.x + ((c.cix : ℚ) + 1/2) / (GRID_SIZE : ℚ) * b.size.x,
   b.min.y + ((c.ciy : ℚ) + 1/2) / (GRID_SIZE : ℚ) * b.size.y,
   b.min.z + ((c.ciz : ℚ) + 1/2) / (GRID_SIZE : ℚ) * b.size.z⟩

/-- The random-offset try loop of `_findInsidePointNear` (source lines
256-263): the `i`-th try displaces the target componentwise by `spread`
times the `i`-th random triple (each component of `rOff i` stands for
one `Math.random() - 0.5` draw); the first point classified interior is
returned. -/
def tryLoop (b : Bounds) (vox : ℕ → ℕ) (target : Vec3) (spread : ℚ)
    (rOff : ℕ → Vec3) : ℕ → ℕ → Option Vec3
  | _, 0 => none
  | i, Nat.succ fuel =>
      let p := target + spread • rOff i
      if isInside b vox p then some p
      else tryLoop b vox target spread rOff (i + 1) fuel

/-- The best-candidate update of the fallback scan (source lines
271-272): `bestDist` starts as `Infinity`, so a `null` best is always
replaced; otherwise the candidate replaces the best exactly when its
squared distance is strictly smaller. -/
def betterOf (best : Option (Vec3 × ℚ)) (p : Vec3) (d : ℚ) :
    Option (Vec3 × ℚ) :=
  match best with
  | none => some (p, d)
  | some pb => if d < pb.2 then some (p, d) else some pb

/-- The fallback cache scan (source lines 266-273): examine
`min(60, cache.length)` random cache entries (the draw
`(Math.random() * len) | 0` is modelled by `rIdx i % cache.length`,
which ranges over the same in-bounds indices), keeping the entry whose
world-space centre is closest to the target by squared distance. -/
def scanSample (b : Bounds) (cache : List Cell) (target : Vec3)
    (rIdx : ℕ → ℕ) : ℕ → ℕ → Option (Vec3 × ℚ) → Option (Vec3 × ℚ)
  | _, 0, best => best
  | i, Nat.succ fuel, best =>
      let c := cache.getD (rIdx i % cache.length) ⟨0, 0, 0⟩
      let p := cellToWorld b c
      scanSample b cache target rIdx (i + 1) fuel
        (betterOf best p ((p - target).lenSq))

/-- `_findInsidePointNear(target, maxTries)` (source lines 252-279) with
the two random streams explicit: `spread = size.length() * 0.25`
(`Math.sqrt` threaded as `sq`), `maxTries` random offsets, then the
fallback scan, then `cellToWorld(cache[0])`; on an empty cache that last
access faults (`cache[0]` is `undefined`), modelled by `none`. -/
def findInsidePointNear (sq : ℚ → ℚ) (b : Bounds) (vox : ℕ → ℕ)
    (cache : List Cell) (rOff : ℕ → Vec3) (rIdx : ℕ → ℕ) (target : Vec3)
    (maxTries : ℕ) : Option Vec3 :=
  match tryLoop b vox target (sq b.size.lenSq * (1/4)) rOff 0 maxTries with
  | some p => some p
  | none =>
      match scanSample b cache target rIdx 0 (min 60 cache.length) none with
      | some pb => some pb.1
      | none =>
          match cache with
          | [] => none
          | c :: _ => some (cellToWorld b c)

theorem isInside_cellToWorld (b : Bounds) (vox : ℕ → ℕ) (c : Cell)
    (hx : c.cix < GRID_SIZE) (hy : c.ciy < GRID_SIZE)
    (hz : c.ciz < GRID_SIZE) (hsx : 0 < b.size.x) (hsy : 0 < b.size.y)
    (hsz : 0 < b.size.z) (hvox : vox (cellIdx c) = 1) :
    isInside b vox (cellToWorld b c) = true := by
  have hG : ((GRID_SIZE : ℚ)) ≠ 0 := by norm_num [GRID_SIZE]
  have hcx : cellCoord b.min.x b.size.x (cellToWorld b c).x = (c.cix : ℤ) := by
    rw [cellCoord]
    have harg : ((cellToWorld b c).x - b.min.x) / b.size.x * (GRID_SIZE : ℚ) =
        (c.cix : ℚ) + 1/2 := by
      show (b.min.x + ((c.cix : ℚ) + 1/2) / (GRID_SIZE : ℚ) * b.size.x -
        b.min.x) / b.size.x * (GRID_SIZE : ℚ) = _
      field_simp
      ring
    rw [harg, Int.floor_eq_iff]
    constructor
    · push_cast; linarith
    · push_cast; linarith
  have hcy : cellCoord b.min.y b.size.y (cellToWorld b c).y = (c.ciy : ℤ) := by
    rw [cellCoord]
    have harg : ((cellToWorld b c).y - b.min.y) / b.size.y * (GRID_SIZE : ℚ) =
        (c.ciy : ℚ) + 1/2 := by
      show (b.min.y + ((c.ciy : ℚ) + 1/2) / (GRID_SIZE : ℚ) * b.size.y -
        b.min.y) / b.size.y * (GRID_SIZE : ℚ) = _
      field_simp
      ring
    rw [harg, Int.floor_eq_iff]
    constructor
    · push_cast; linarith
    · push_cast; linarith
  have hcz : cellCoord b.min.z b.size.z (cellToWorld b c).z = (c.ciz : ℤ) := by
    rw [cellCoord]
    have harg : ((cellToWorld b c).z - b.min.z) / b.size.z * (GRID_SIZE : ℚ) =
        (c.ciz : ℚ) + 1/2 := by
      show (b.min.z + ((c.ciz : ℚ) + 1/2) / (GRID_SIZE : ℚ) * b.size.z -
        b.min.z) / b.size.z * (GRID_SIZE : ℚ) = _
      field_simp
      ring
    rw [harg, Int.floor_eq_iff]
    constructor
    · push_cast; linarith
    · push_cast; linarith
  rw [isInside, hcx, hcy, hcz, if_neg]
  · have hidx : ((c.cix : ℤ) * (GRID_SIZE : ℤ) * (GRID_SIZE : ℤ) +
        (c.ciy : ℤ) * (GRID_SIZE : ℤ) + (c.ciz : ℤ)).toNat = cellIdx c := by
      have he : ((c.cix : ℤ) * (GRID_SIZE : ℤ) * (GRID_SIZE : ℤ) +
          (c.ciy : ℤ) * (GRID_SIZE : ℤ) + (c.ciz : ℤ)) =
          ((cellIdx c : ℕ) : ℤ) := by
        rw [cellIdx]
        push_cast
        ring
      rw [he, Int.toNat_natCast]
    rw [hidx]
    simpa using hvox
  · push_neg
    refine ⟨by positivity, by exact_mod_cast hx, by positivity,
      by exact_mod_cast hy, by positivity, by exact_mod_cast hz⟩

theorem tryLoop_inside (b : Bounds) (vox : ℕ → ℕ) (target : Vec3)
    (spread : ℚ) (rOff : ℕ → Vec3) :
    ∀ (fuel i : ℕ) (p : Vec3),
      tryLoop b vox target spread rOff i fuel = some p →
      isInside b vox p = true := by
  intro fuel
  induction fuel with
  | zero => intro i p h; exact absurd h (by rw [tryLoop]; simp)
  | succ fuel ih =>
      intro i p h
      rw [tryLoop] at h
      split_ifs at h with hin
      · rw [← Option.some.inj h]
        exact hin
      · exact ih (i + 1) p h

theorem betterOf_isSome (best : Option (Vec3 × ℚ)) (p : Vec3) (d : ℚ) :
    (betterOf best p d).isSome = true := by
  rw [betterOf.eq_def]
  match best with
  | none => rfl
  | some pb =>
      simp only
      split_ifs <;> rfl

theorem betterOf_cases (best : Option (Vec3 × ℚ)) (p : Vec3) (d : ℚ)
    (pb' : Vec3 × ℚ) (h : betterOf best p d = some pb') :
    pb' = (p, d) ∨ best = some pb' := by
  rw [betterOf.eq_def] at h
  match best, h with
  | none, h => exact Or.inl (Option.some.inj h).symm
  | some pb0, h =>
      simp only at h
      split_ifs at h with hd
      · exact Or.inl (Option.some.inj h).symm
      · exact Or.inr (by rw [Option.some.inj h])

theorem scanSample_zero (b : Bounds) (cache : List Cell) (target : Vec3)
    (rIdx : ℕ → ℕ) (i : ℕ) (best : Option (Vec3 × ℚ)) :
    scanSample b cache target rIdx i 0 best = best := rfl

theorem scanSample_succ (b : Bounds) (cache : List Cell) (target : Vec3)
    (rIdx : ℕ → ℕ) (i fuel : ℕ) (best : Option (Vec3 × ℚ)) :
    scanSample b cache target rIdx i (fuel + 1) best =
      scanSample b cache target rIdx (i + 1) fuel
        (betterOf best
          (cellToWorld b (cache.getD (rIdx i % cache.length) ⟨0, 0, 0⟩))
          ((cellToWorld b (cache.getD (rIdx i % cache.length) ⟨0, 0, 0⟩) -
            target).lenSq)) := rfl

theorem scanSample_mem (b : Bounds) (cache : List Cell) (target : Vec3)
    (rIdx : ℕ → ℕ) (hne : cache ≠ []) :
    ∀ (fuel i : ℕ) (best : Option (Vec3 × ℚ)),
      (∀ pb, best = some pb → ∃ c ∈ cache, pb.1 = cellToWorld b c) →
      ∀ pb, scanSample b cache target rIdx i fuel best = some pb →
        ∃ c ∈ cache, pb.1 = cellToWorld b c := by
  intro fuel
  induction fuel with
  | zero =>
      intro i best hbest pb h
      rw [scanSample_zero] at h
      exact hbest pb h
  | succ fuel ih =>
      intro i best hbest pb h
      rw [scanSample_succ] at h
      refine ih (i + 1) _ ?_ pb h
      intro pb' hpb'
      have hmem : cache.getD (rIdx i % cache.length) ⟨0, 0, 0⟩ ∈ cache := by
        have hlen : 0 < cache.length := List.length_pos.mpr hne
        have hlt : rIdx i % cache.length < cache.length :=
          Nat.mod_lt _ hlen
        rw [List.getD_eq_getElem?_getD, List.getElem?_eq_getElem hlt,
          Option.getD_some]
        exact List.getElem_mem hlt
      rcases betterOf_cases _ _ _ _ hpb' with hcase | hcase
      · exact ⟨cache.getD (rIdx i % cache.length) ⟨0, 0, 0⟩, hmem,
          by rw [hcase]⟩
      · exact hbest pb' hcase

theorem scanSample_isSome (b : Bounds) (cache : List Cell) (target : Vec3)
    (rIdx : ℕ → ℕ) :
    ∀ (fuel i : ℕ) (best : Option (Vec3 × ℚ)),
      (best.isSome = true ∨ 0 < fuel) →
      (scanSample b cache target rIdx i fuel best).isSome = true := by
  intro fuel
  induction fuel with
  | zero =>
      intro i best h
      rw [scanSample_zero]
      rcases h with h | h
      · exact h
      · omega
  | succ fuel ih =>
      intro i best h
      rw [scanSample_succ]
      exact ih (i + 1) _ (Or.inl (betterOf_isSome _ _ _))

/-- C9: whenever the `InsideCache` is non-empty, every cached entry is an
in-range grid cell whose voxel is marked interior (as `_voxelize`
guarantees, source lines 212-220), and the bounds have positive size,
`_findInsidePointNear` terminates without error for every target, try
budget and random draws, returning a point that classifies interior
under the voxel grid — both on the random-offset path, whose result
passed the `_isInside` test directly, and on the fallback path, which
returns the world-space centre of a cached interior cell: interior cell
centres always map back to their own interior cell. -/
theorem findInsidePointNear_safe (sq : ℚ → ℚ) (b : Bounds) (vox : ℕ → ℕ)
    (cache : List Cell) (rOff : ℕ → Vec3) (rIdx : ℕ → ℕ) (target : Vec3)
    (maxTries : ℕ) (hne : cache ≠ [])
    (hcells : ∀ c ∈ cache, c.cix < GRID_SIZE ∧ c.ciy < GRID_SIZE ∧
      c.ciz < GRID_SIZE ∧ vox (cellIdx c) = 1)
    (hsx : 0 < b.size.x) (hsy : 0 < b.size.y) (hsz : 0 < b.size.z) :
    ∃ p, findInsidePointNear sq b vox cache rOff rIdx target maxTries =
        some p ∧ isInside b vox p = true := by
  rw [findInsidePointNear.eq_def]
  match htry : tryLoop b vox target (sq b.size.lenSq * (1/4)) rOff 0
      maxTries with
  | some p =>
      exact ⟨p, rfl, tryLoop_inside b vox target _ rOff maxTries 0 p htry⟩
  | none =>
      have hfuel : 0 < min 60 cache.length := by
        have : 0 < cache.length := List.length_pos.mpr hne
        omega
      have hsome := scanSample_isSome b cache target rIdx
        (min 60 cache.length) 0 none (Or.inr hfuel)
      match hscan : scanSample b cache target rIdx 0 (min 60 cache.length)
          none with
      | none => rw [hscan] at hsome; exact absurd hsome (by simp)
      | some pb =>
          obtain ⟨c, hc, hp⟩ := scanSample_mem b cache target rIdx hne
            (min 60 cache.length) 0 none
            (fun pb' h => absurd h (by simp)) pb hscan
          obtain ⟨h1, h2, h3, h4⟩ := hcells c hc
          exact ⟨pb.1, rfl, by
            rw [hp]
            exact isInside_cellToWorld b vox c h1 h2 h3 hsx hsy hsz h4⟩

/-- C9, witness: the sampler theorem at a concrete cube, singleton cache
and concrete random draws. -/
theorem findInsidePointNear_safe_witness :
    ∃ p, findInsidePointNear (fun _ => 0) bCube voxAll [⟨16, 16, 16⟩]
        (fun _ => ⟨0, 0, 0⟩) (fun _ => 0) ⟨0, 0, 0⟩ 1 = some p ∧
      isInside bCube voxAll p = true :=
  findInsidePointNear_safe (fun _ => 0) bCube voxAll [⟨16, 16, 16⟩]
    (fun _ => ⟨0, 0, 0⟩) (fun _ => 0) ⟨0, 0, 0⟩ 1 (by simp)
    (by decide) (by norm_num [bCube]) (by norm_num [bCube])
    (by norm_num [bCube])

/-- Model of a JavaScript IEEE-754 number for the claims about NaN and
the infinities: finite values are exact rationals, the special values are
explicit constructors.  Only the operations performed by `_isInside` and
the integration step are modelled. -/
inductive JSNum where
  | nan : JSNum
  | pinf : JSNum
  | ninf : JSNum
  | fin : ℚ → JSNum
deriving DecidableEq, Repr

namespace JSNum

/-- IEEE negation. -/
def neg : JSNum → JSNum
  | nan => nan
  | pinf => ninf
  | ninf => pinf
  | fin q => fin (-q)

/-- IEEE addition: NaN propagates, opposite infinities give NaN. -/
def add : JSNum → JSNum → JSNum
  | nan, _ => nan
  | _, nan => nan
  | pinf, ninf => nan
  | ninf, pinf => nan
  | pinf, _ => pinf
  | _, pinf => pinf
  | ninf, _ => ninf
  | _, ninf => ninf
  | fin a, fin b => fin (a + b)

/-- IEEE subtraction, `a - b = a + (-b)`. -/
def sub (a b : JSNum) : JSNum := a.add b.neg

/-- IEEE multiplication: NaN propagates and `±∞ · 0` is NaN. -/
def mul : JSNum → JSNum → JSNum
  | nan, _ => nan
  | _, nan => nan
  | pinf, pinf => pinf
  | pinf, ninf => ninf
  | ninf, pinf => ninf
  | ninf, ninf => pinf
  | pinf, fin b => if 0 < b then pinf else if b < 0 then ninf else nan
  | fin a, pinf => if 0 < a then pinf else if a < 0 then ninf else nan
  | ninf, fin b => if 0 < b then ninf else if b < 0 then pinf else nan
  | fin a, ninf => if 0 < a then ninf else if a < 0 then pinf else nan
  | fin a, fin b => fin (a * b)

/-- IEEE division by a finite value (the only division `_isInside`
performs): a zero divisor yields a signed infinity per the sign of the
dividend (`+0` divisor convention) and `0 / 0` yields NaN. -/
def divFin : JSNum → ℚ → JSNum
  | nan, _ => nan
  | pinf, s => if s < 0 then ninf else pinf
  | ninf, s => if s < 0 then pinf else ninf
  | fin a, s =>
      if s = 0 then (if 0 < a then pinf else if a < 0 then ninf else nan)
      else fin (a / s)

/-- `Math.floor`: the special values pass through. -/
def floorJ : JSNum → JSNum
  | nan => nan
  | pinf => pinf
  | ninf => ninf
  | fin q => fin ⌊q⌋

/-- IEEE `<` — false whenever either side is NaN. -/
def ltJ : JSNum → JSNum → Bool
  | nan, _ => false
  | _, nan => false
  | ninf, ninf => false
  | ninf, _ => true
  | _, ninf => false
  | pinf, _ => false
  | _, pinf => true
  | fin a, fin b => decide (a < b)

/-- IEEE `>=` — false whenever either side is NaN. -/
def geJ : JSNum → JSNum → Bool
  | nan, _ => false
  | _, nan => false
  | pinf, _ => true
  | _, pinf => false
  | ninf, ninf => true
  | ninf, _ => false
  | _, ninf => true
  | fin a, fin b => decide (b ≤ a)

/-- Finiteness test: only `fin` values are finite. -/
def isFiniteJ : JSNum → Bool
  | fin _ => true
  | _ => false

end JSNum

/-- A `Vector3` whose components may hold NaN or an infinity. -/
structure Vec3J where
  x : JSNum
  y : JSNum
  z : JSNum
deriving DecidableEq, Repr

/-- The per-axis cell computation of `_isInside` over IEEE numbers:
`Math.floor((w - min) / size * G)` with finite bounds (source lines
235-237). -/
def cellJ (minc sizec : ℚ) (w : JSNum) : JSNum :=
  (((w.sub (JSNum.fin minc)).divFin sizec).mul
    (JSNum.fin (GRID_SIZE : ℚ))).floorJ

/-- JavaScript typed-array read `this._voxels[i] === 1` (source line
239): a non-integer, negative, out-of-range or non-finite index reads
`undefined`, which is never `=== 1`; this is modelled by `none`. -/
def readVox (vox : ℕ → ℕ) : JSNum → Option ℕ
  | JSNum.fin q =>
      if 0 ≤ q.num ∧ q.den = 1 ∧
          q.num < (GRID_SIZE : ℤ) * GRID_SIZE * GRID_SIZE then
        some (vox q.num.toNat)
      else none
  | _ => none

/-- `_isInside(pos)` over IEEE numbers (source lines 232-240), with the
index expression `ix*G*G + iy*G + iz` associated as JavaScript evaluates
it. -/
def isInsideJS (b : Bounds) (vox : ℕ → ℕ) (p : Vec3J) : Bool :=
  if (cellJ b.min.x b.size.x p.x).ltJ (JSNum.fin 0) ||
      (cellJ b.min.x b.size.x p.x).geJ (JSNum.fin (GRID_SIZE : ℚ)) ||
      (cellJ b.min.y b.size.y p.y).ltJ (JSNum.fin 0) ||
      (cellJ b.min.y b.size.y p.y).geJ (JSNum.fin (GRID_SIZE : ℚ)) ||
      (cellJ b.min.z b.size.z p.z).ltJ (JSNum.fin 0) ||
      (cellJ b.min.z b.size.z p.z).geJ (JSNum.fin (GRID_SIZE : ℚ)) then
    false
  else
    decide (readVox vox
      ((((cellJ b.min.x b.size.x p.x).mul
            (JSNum.fin (GRID_SIZE : ℚ))).mul (JSNum.fin (GRID_SIZE : ℚ)) |>.add
          ((cellJ b.min.y b.size.y p.y).mul (JSNum.fin (GRID_SIZE : ℚ)))).add
        (cellJ b.min.z b.size.z p.z)) = some 1)

/-- One node's integration and hard clamp over IEEE numbers (source
lines 361-372); the result triple is the committed
`(pos, prev, vel)`. -/
def integrateClampJS (damping dt : ℚ) (b : Bounds) (vox : ℕ → ℕ)
    (pos vel force : Vec3J) : Vec3J × Vec3J × Vec3J :=
  let v1 : Vec3J :=
    ⟨(vel.x.add (force.x.mul (JSNum.fin dt))).mul (JSNum.fin damping),
     (vel.y.add (force.y.mul (JSNum.fin dt))).mul (JSNum.fin damping),
     (vel.z.add (force.z.mul (JSNum.fin dt))).mul (JSNum.fin damping)⟩
  let p1 : Vec3J :=
    ⟨pos.x.add (v1.x.mul (JSNum.fin dt)),
     pos.y.add (v1.y.mul (JSNum.fin dt)),
     pos.z.add (v1.z.mul (JSNum.fin dt))⟩
  if isInsideJS b vox p1 then (p1, pos, v1)
  else (pos, pos,
    ⟨v1.x.mul (JSNum.fin (-3/10)), v1.y.mul (JSNum.fin (-3/10)),
     v1.z.mul (JSNum.fin (-3/10))⟩)

theorem JSNum.add_nan (a : JSNum) : a.add JSNum.nan = JSNum.nan := by
  cases a <;> rfl

theorem JSNum.mul_nan (a : JSNum) : a.mul JSNum.nan = JSNum.nan := by
  cases a <;> rfl

theorem JSNum.nan_add (a : JSNum) : JSNum.nan.add a = JSNum.nan := by
  cases a <;> rfl

theorem JSNum.nan_mul (a : JSNum) : JSNum.nan.mul a = JSNum.nan := by
  cases a <;> rfl

theorem readVox_nan (vox : ℕ → ℕ) : readVox vox JSNum.nan = none := rfl

theorem cellJ_nonfinite (minc sizec : ℚ) (w : JSNum)
    (h : w.isFiniteJ = false) :
    cellJ minc sizec w = JSNum.nan ∨ cellJ minc sizec w = JSNum.pinf ∨
      cellJ minc sizec w = JSNum.ninf := by
  match w, h with
  | JSNum.nan, _ => exact Or.inl rfl
  | JSNum.pinf, _ =>
      rw [cellJ]
      have hsub : JSNum.pinf.sub (JSNum.fin minc) = JSNum.pinf := rfl
      rw [hsub, JSNum.divFin]
      split_ifs with hs
      · right; right
        rw [JSNum.mul, if_pos (by norm_num [GRID_SIZE])]
        rfl
      · right; left
        rw [JSNum.mul, if_pos (by norm_num [GRID_SIZE])]
        rfl
  | JSNum.ninf, _ =>
      rw [cellJ]
      have hsub : JSNum.ninf.sub (JSNum.fin minc) = JSNum.ninf := rfl
      rw [hsub, JSNum.divFin]
      split_ifs with hs
      · right; left
        rw [JSNum.mul, if_pos (by norm_num [GRID_SIZE])]
        rfl
      · right; right
        rw [JSNum.mul, if_pos (by norm_num [GRID_SIZE])]
        rfl

theorem isInsideJS_nonfinite (b : Bounds) (vox : ℕ → ℕ) (p : Vec3J)
    (h : p.x.isFiniteJ = false ∨ p.y.isFiniteJ = false ∨
      p.z.isFiniteJ = false) :
    isInsideJS b vox p = false := by
  rw [isInsideJS]
  rcases h with hc | hc | hc
  · rcases cellJ_nonfinite b.min.x b.size.x p.x hc with he | he | he
    · split_ifs with hcond
      · rfl
      · rw [he]
        simp only [JSNum.nan_mul, JSNum.nan_add, JSNum.add_nan,
          JSNum.mul_nan, readVox_nan]
        simp
    · split_ifs with hcond
      · rfl
      · exfalso
        apply hcond
        rw [he]
        simp [JSNum.ltJ, JSNum.geJ]
    · split_ifs with hcond
      · rfl
      · exfalso
        apply hcond
        rw [he]
        simp [JSNum.ltJ, JSNum.geJ]
  · rcases cellJ_nonfinite b.min.y b.size.y p.y hc with he | he | he
    · split_ifs with hcond
      · rfl
      · rw [he]
        simp only [JSNum.nan_mul, JSNum.nan_add, JSNum.add_nan,
          JSNum.mul_nan, readVox_nan]
        simp
    · split_ifs with hcond
      · rfl
      · exfalso
        apply hcond
        rw [he]
        simp [JSNum.ltJ, JSNum.geJ]
    · split_ifs with hcond
      · rfl
      · exfalso
        apply hcond
        rw [he]
        simp [JSNum.ltJ, JSNum.geJ]
  · rcases cellJ_nonfinite b.min.z b.size.z p.z hc with he | he | he
    · split_ifs with hcond
      · rfl
      · rw [he]
        simp only [JSNum.nan_mul, JSNum.nan_add, JSNum.add_nan,
          JSNum.mul_nan, readVox_nan]
        simp
    · split_ifs with hcond
      · rfl
      · exfalso
        apply hcond
        rw [he]
        simp [JSNum.ltJ, JSNum.geJ]
    · split_ifs with hcond
      · rfl
      · exfalso
        apply hcond
        rw [he]
        simp [JSNum.ltJ, JSNum.geJ]

theorem isInsideJS_finite (b : Bounds) (vox : ℕ → ℕ) (p : Vec3J)
    (h : isInsideJS b vox p = true) :
    p.x.isFiniteJ = true ∧ p.y.isFiniteJ = true ∧ p.z.isFiniteJ = true := by
  refine ⟨?_, ?_, ?_⟩ <;> by_contra hx
  · rw [isInsideJS_nonfinite b vox p
      (Or.inl (Bool.not_eq_true _ ▸ hx))] at h
    exact absurd h (by simp)
  · rw [isInsideJS_nonfinite b vox p
      (Or.inr (Or.inl (Bool.not_eq_true _ ▸ hx)))] at h
    exact absurd h (by simp)
  · rw [isInsideJS_nonfinite b vox p
      (Or.inr (Or.inr (Bool.not_eq_true _ ▸ hx)))] at h
    exact absurd h (by simp)

/-- C4, counterexample.  A node with interior finite position and a NaN
velocity component: the integrated position is NaN, `_isInside`
classifies it exterior and the clamp reverts the position — but the
committed velocity is the NaN velocity multiplied by `-0.3`, which is
still NaN, so a NaN value does persist into committed node state. -/
theorem nan_velocity_persists_counterexample :
    (integrateClampJS (85/100) (1/180) bCube voxAll
        ⟨JSNum.fin 0, JSNum.fin 0, JSNum.fin 0⟩
        ⟨JSNum.nan, JSNum.fin 0, JSNum.fin 0⟩
        ⟨JSNum.fin 0, JSNum.fin 0, JSNum.fin 0⟩).2.2.x = JSNum.nan ∧
    (integrateClampJS (85/100) (1/180) bCube voxAll
        ⟨JSNum.fin 0, JSNum.fin 0, JSNum.fin 0⟩
        ⟨JSNum.nan, JSNum.fin 0, JSNum.fin 0⟩
        ⟨JSNum.fin 0, JSNum.fin 0, JSNum.fin 0⟩).1 =
      ⟨JSNum.fin 0, JSNum.fin 0, JSNum.fin 0⟩ := by
  constructor <;>
    norm_num [integrateClampJS, isInsideJS, cellJ, JSNum.sub, JSNum.neg,
      JSNum.add, JSNum.mul, JSNum.divFin, JSNum.floorJ, JSNum.ltJ,
      JSNum.geJ, readVox, bCube, voxAll, GRID_SIZE] <;> simp

/-- C4, amended.  Any position with a NaN or infinite component is
classified exterior by the voxel-grid membership test, and the
post-integration containment check therefore reverts such positions: a
node whose pre-substep position is interior commits an interior, finite
position.  The committed velocity, however, is not protected: when the
node is reverted the velocity is only multiplied by `-0.3`, so a NaN
velocity persists into committed node state (see the
counterexample). -/
theorem isInsideJS_nan_safety (b : Bounds) (vox : ℕ → ℕ) :
    (∀ p : Vec3J,
      (p.x.isFiniteJ = false ∨ p.y.isFiniteJ = false ∨
        p.z.isFiniteJ = false) →
      isInsideJS b vox p = false) ∧
    ∀ (damping dt : ℚ) (pos vel force : Vec3J),
      isInsideJS b vox pos = true →
      isInsideJS b vox
          (integrateClampJS damping dt b vox pos vel force).1 = true ∧
        (integrateClampJS damping dt b vox pos vel force).1.x.isFiniteJ =
          true ∧
        (integrateClampJS damping dt b vox pos vel force).1.y.isFiniteJ =
          true ∧
        (integrateClampJS damping dt b vox pos vel force).1.z.isFiniteJ =
          true := by
  refine ⟨isInsideJS_nonfinite b vox, ?_⟩
  intro damping dt pos vel force hpos
  have hcommit : isInsideJS b vox
      (integrateClampJS damping dt b vox pos vel force).1 = true := by
    rw [integrateClampJS]
    split_ifs with hin
    · exact hin
    · exact hpos
  exact ⟨hcommit, isInsideJS_finite b vox _ hcommit⟩

/-- C4, witness: the safety theorem applied at the concrete cube: an
infinite position classifies exterior, and a finite interior node
commits an interior position. -/
theorem isInsideJS_nan_safety_witness :
    isInsideJS bCube voxAll ⟨JSNum.pinf, JSNum.fin 0, JSNum.fin 0⟩ =
      false ∧
    isInsideJS bCube voxAll
      (integrateClampJS (85/100) (1/180) bCube voxAll
        ⟨JSNum.fin 0, JSNum.fin 0, JSNum.fin 0⟩
        ⟨JSNum.fin 1, JSNum.fin 0, JSNum.fin 0⟩
        ⟨JSNum.fin 0, JSNum.fin 0, JSNum.fin 0⟩).1 = true := by
  have h := isInsideJS_nan_safety bCube voxAll
  refine ⟨h.1 _ (Or.inl rfl), (h.2 (85/100) (1/180) _ _ _ ?_).1⟩
  norm_num [isInsideJS, cellJ, JSNum.sub, JSNum.neg, JSNum.add, JSNum.mul,
    JSNum.divFin, JSNum.floorJ, JSNum.ltJ, JSNum.geJ, readVox, bCube,
    voxAll, GRID_SIZE]

/-- One observable event of the cooperative voxelization interleaving,
abstracted from `loadFile`/`_voxelize` (source lines 40-73 and 144-230):
`write cells` is one chunk of grid marking a job performs between two
cooperative yields (the scanline rows of lines 199-207, which write
`this._voxels[...] = 1` through `this` — the grid installed at the
moment the chunk runs, not the grid that existed when the job started);
`install` is a load request entering `_voxelize` and repointing
`this._voxels` to a fresh zeroed array (line 146).  The state is the
generation counter of the installed array paired with the cells so far
marked in it.  The source contains no cancellation token or generation
check, so a job suspended at a yield (line 176) still contributes every
remaining chunk after an interleaved install. -/
inductive VoxEvent where
  | write : List ℕ → VoxEvent
  | install : VoxEvent
deriving DecidableEq, Repr

/-- Replay a sequence of voxelization events against the shared
`this._voxels` state `(generation, marked cells)`. -/
def runVox : List VoxEvent → ℕ × List ℕ → ℕ × List ℕ
  | [], s => s
  | VoxEvent.write cs :: evs, s => runVox evs (s.1, s.2 ++ cs)
  | VoxEvent.install :: evs, s => runVox evs (s.1 + 1, [])

/-- The grid writes one event performs. -/
def chunkWrites : VoxEvent → List ℕ
  | VoxEvent.write cs => cs
  | VoxEvent.install => []

theorem runVox_append :
    ∀ (l1 l2 : List VoxEvent) (s : ℕ × List ℕ),
      runVox (l1 ++ l2) s = runVox l2 (runVox l1 s) := by
  intro l1
  induction l1 with
  | nil => intro l2 s; rfl
  | cons e rest ih =>
      intro l2 s
      match e with
      | VoxEvent.write cs => rw [List.cons_append, runVox, runVox, ih]
      | VoxEvent.install => rw [List.cons_append, runVox, runVox, ih]

theorem runVox_no_install :
    ∀ (evs : List VoxEvent) (g : ℕ) (ms : List ℕ),
      VoxEvent.install ∉ evs →
      runVox evs (g, ms) = (g, ms ++ (evs.map chunkWrites).flatten) := by
  intro evs
  induction evs with
  | nil => intro g ms _; simp [runVox]
  | cons e rest ih =>
      intro g ms h
      match e with
      | VoxEvent.write cs =>
          rw [runVox]
          show runVox rest (g, ms ++ cs) = _
          rw [ih g (ms ++ cs) fun hm => h (List.mem_cons.mpr (Or.inr hm))]
          simp [chunkWrites, List.append_assoc]
      | VoxEvent.install => exact absurd (List.mem_cons_self _ _) h

/-- C10, counterexample.  A concrete interleaving: load 1 installs its
grid and its job writes cell `100`; load 2 then installs a fresh grid
while job 1 is suspended at a yield; job 1 resumes and writes cell
`200`; job 2 writes cell `300`.  The final grid — the one load 2
installed — contains `200`, a cell written by the supposedly cancelled
job 1 after load 2's checkpoint, so the previous job did perform further
grid writes and they were merged into the new load's grid. -/
theorem voxelize_race_counterexample :
    runVox [VoxEvent.install, VoxEvent.write [100], VoxEvent.install,
        VoxEvent.write [200], VoxEvent.write [300]] (0, []) =
      (2, [200, 300]) ∧
    200 ∈ (runVox [VoxEvent.install, VoxEvent.write [100],
        VoxEvent.install, VoxEvent.write [200], VoxEvent.write [300]]
        (0, [])).2 := by
  constructor
  · rfl
  · decide

/-- C10, amended.  Starting a new mesh load does not cancel the previous
voxelization job: the source has no cancellation flag, so after the new
load installs a fresh grid the final grid contents are exactly the
concatenation of every chunk written after that install — by whichever
job wrote it, so the previous job's remaining rows are merged into the
new load's grid, while all writes made before the install are discarded
with the replaced array. -/
theorem voxelize_race_merge (evs1 evs2 : List VoxEvent) (g : ℕ)
    (ms : List ℕ) (h : VoxEvent.install ∉ evs2) :
    (runVox (evs1 ++ VoxEvent.install :: evs2) (g, ms)).2 =
      (evs2.map chunkWrites).flatten := by
  rw [runVox_append]
  match hrun : runVox evs1 (g, ms) with
  | (g1, ms1) =>
      rw [runVox, runVox_no_install evs2 (g1 + 1) [] h]
      simp

/-- C10, witness: the merge theorem at a concrete interleaving. -/
theorem voxelize_race_merge_witness :
    (runVox ([VoxEvent.write [1]] ++ VoxEvent.install ::
        [VoxEvent.write [2], VoxEvent.write [3]]) (0, [])).2 =
      (([VoxEvent.write [2], VoxEvent.write [3]]).map chunkWrites).flatten :=
  voxelize_race_merge [VoxEvent.write [1]]
    [VoxEvent.write [2], VoxEvent.write [3]] 0 [] (by decide)

end NetViz
